import Mathlib

/-!
# Verification of the FPL-Edge reconciliation and scraping layer

A shallow embedding, in Lean 4, of the player-identity reconciliation and
rate-limited scraping logic of the FPL-Edge repository
(`src/pipeline/dbt_dag/include/data/collect_data`).  Pandas dataframes are
modelled as lists of typed rows, `np.NaN` cells as `Option`, raised Python
exceptions as `Except`, and console / network interaction as explicit
oracle parameters.  Each definition is translated from the corresponding
Python function and keeps its name where Lean allows it.
-/

namespace FPLEdge

/-! ## Decimal rendering and parsing (models Python `str`/`int` on integers) -/

/-- The decimal digit character for `n < 10` (models Python's rendering of a digit). -/
def natDigitChar (n : Nat) : Char := Char.ofNat (48 + n)

/-- Fuel-driven digit expansion; `fuel > n` makes the fuel irrelevant. -/
def toDecimalAux : Nat → Nat → List Char
  | 0, _ => []
  | fuel + 1, n =>
    if n < 10 then [natDigitChar n]
    else toDecimalAux fuel (n / 10) ++ [natDigitChar (n % 10)]

/-- Decimal digits of a natural number, most significant first
(models Python `str` on a non-negative `int`). -/
def toDecimal (n : Nat) : List Char := toDecimalAux (n + 1) n

/-- Python `str` on an `int`, including the sign for negative values. -/
def pyStr (i : Int) : List Char :=
  if i < 0 then '-' :: toDecimal i.natAbs else toDecimal i.toNat

/-- Value of a decimal digit character, `none` for a non-digit. -/
def digitVal? (c : Char) : Option Nat :=
  if c.isDigit then some (c.toNat - 48) else none

/-- Fold a digit string (most significant first) into a number; `none` on any
non-digit character. -/
def parseNatAux (acc : Nat) : List Char → Option Nat
  | [] => some acc
  | c :: cs =>
    match digitVal? c with
    | some d => parseNatAux (acc * 10 + d) cs
    | none => none

/-- Python `int(...)` on a string of an optional minus sign followed by digits:
raises (here `none`) on the empty string, a bare sign, or any other character. -/
def pyIntChars (cs : List Char) : Option Int :=
  match cs with
  | [] => none
  | c :: rest =>
    if c = '-' then
      if rest.isEmpty then none
      else (parseNatAux 0 rest).map (fun n => -(n : Int))
    else (parseNatAux 0 cs).map (fun n => (n : Int))

/-- Python `s[-2:]`: the last two characters (all of them when shorter). -/
def last2 (cs : List Char) : List Char := cs.drop (cs.length - 2)

/-! ## `get_previous_season` (runners/run_all.py) -/

/-- `get_previous_season` from `runners/run_all.py`: parse `season_str[:4]` and
`season_str[5:]` as integers, subtract one from both, and format as
`f"{previous_start_year}-{str(previous_end_year)[-2:]}"`.  A parse failure
(Python `ValueError`) is modelled as `none`. -/
def get_previous_season (season_str : String) : Option String :=
  match pyIntChars (season_str.data.take 4), pyIntChars (season_str.data.drop 5) with
  | some start_year, some end_year =>
    some ⟨pyStr (start_year - 1) ++ '-' :: last2 (pyStr (end_year - 1))⟩
  | _, _ => none

/-- Modelled from the spec: the forward-season inverse named by the testable
property list — the map that adds one to both years of a `YYYY-YY` season
string, formatted exactly as `get_previous_season` formats its result.  The
repository has no such function; the claim defines it. -/
def next_season (season_str : String) : Option String :=
  match pyIntChars (season_str.data.take 4), pyIntChars (season_str.data.drop 5) with
  | some start_year, some end_year =>
    some ⟨pyStr (start_year + 1) ++ '-' :: last2 (pyStr (end_year + 1))⟩
  | _, _ => none

/-! ## `fuzzy_match` (processors/merge_ids.py) -/

/-- `fuzzy_match` from `processors/merge_ids.py`.  The scorer parameter models
`fuzzywuzzy.process.extractOne`: it returns the best candidate with its score,
or `none` (Python `None`, whose unpacking raises and is re-raised as a
`FuzzyMatchError`) when there is no candidate.  The threshold validation
`0 <= threshold <= 100` raises a `ValueError` re-raised as `FuzzyMatchError`;
the lower bound is enforced by the `Nat` type.  On success the best candidate
is returned when its score reaches the threshold, and `np.NaN` (here `none`)
otherwise. -/
def fuzzy_match (name : String) (choices : List String) (threshold : Nat)
    (scorer : String → List String → Option (String × Nat)) :
    Except String (Option String) :=
  if threshold ≤ 100 then
    match scorer name choices with
    | some (m, score) => .ok (if threshold ≤ score then some m else none)
    | none => .error "Failed to perform fuzzy match"
  else .error "Threshold must be a number between 0 and 100"

/-! ## `make_fpl_request` (processors/getters.py) -/

/-- The outcome of one HTTP GET against the FPL API, as observed by
`make_fpl_request`: a parsed JSON payload, an HTTP error status (with the
optional `Retry-After` header), a connection error, a timeout, or a JSON
decoding failure. -/
inductive FplResponse (α : Type) where
  | ok (payload : α)
  | httpError (status : Nat) (retryAfter : Option Nat)
  | connectionError
  | timeout
  | jsonDecodeError
deriving DecidableEq

/-- The two exception classes of `processors/getters.py`. -/
inductive FplFailure where
  | requestError (msg : String)
  | parsingError (msg : String)
deriving DecidableEq

/-- The retry loop of `make_fpl_request`.  `responses` gives the server's
response to each attempt; the result pairs the list of sleep durations
performed (`time.sleep(retry_delay)` between retries) with the outcome.
Falling off the end of the `for` loop returns Python `None`, modelled as
`.ok none`; a successful request is `.ok (some payload)`.  Note that the
`HTTPError` branch recomputes `retry_delay` from the `Retry-After` header on a
429 status but then raises unconditionally, so the updated delay is dead. -/
def make_fpl_request_loop {α : Type} (responses : Nat → FplResponse α) :
    Nat → Nat → Nat → List Nat → List Nat × Except FplFailure (Option α)
  | _, 0, _, sleeps => (sleeps, .ok none)
  | attempt, r + 1, retry_delay, sleeps =>
    match responses attempt with
    | .ok payload => (sleeps, .ok (some payload))
    | .httpError status retryAfter =>
      let _retry_delay := if status = 429 then retryAfter.getD retry_delay else retry_delay
      (sleeps, .error (.requestError ("HTTP " ++ String.mk (toDecimal status) ++ " error")))
    | .connectionError =>
      if r = 0 then (sleeps, .error (.requestError "Connection failed"))
      else make_fpl_request_loop responses (attempt + 1) r retry_delay (sleeps ++ [retry_delay])
    | .timeout =>
      if r = 0 then (sleeps, .error (.requestError "Request timed out"))
      else make_fpl_request_loop responses (attempt + 1) r retry_delay (sleeps ++ [retry_delay])
    | .jsonDecodeError => (sleeps, .error (.parsingError "Failed to parse API response"))

/-- `make_fpl_request` from `processors/getters.py` with its defaults
`max_retries = 3`, `retry_delay = 5`. -/
def make_fpl_request {α : Type} (responses : Nat → FplResponse α)
    (max_retries : Nat := 3) (retry_delay : Nat := 5) :
    List Nat × Except FplFailure (Option α) :=
  make_fpl_request_loop responses 0 max_retries retry_delay []

/-! ## `collect_team_players` (scrapers/fbref_get_ids.py) -/

/-- Errors surfaced by `collect_team_players`: the `FBRefRateLimitError`
configuration error, and everything else (`ZeroDivisionError` from
`60 / call_rate`, a missing club key, wrapped scraping failures). -/
inductive FBRefIdsError where
  | rateLimit (msg : String)
  | otherError (msg : String)
deriving DecidableEq

/-- One iteration of the team loop in `collect_team_players`: look the club
link up (a missing club raises `KeyError`, wrapped by the `except` clause) and
record the page GET; an already-raised error propagates. -/
def collectStep (club_link_dict : List (String × String))
    (acc : Except FBRefIdsError (List String)) (team : String) :
    Except FBRefIdsError (List String) :=
  match acc with
  | .error e => .error e
  | .ok links =>
    match club_link_dict.find? (fun pr => pr.1 = team) with
    | some pr => .ok (links ++ [pr.2])
    | none => .error (.otherError ("KeyError: " ++ team))

/-- `collect_team_players` from `scrapers/fbref_get_ids.py`, with the network
effect modelled as the list of team-page URLs it would GET, in order.  The
`call_rate > 10` check runs before the wait-time computation, the `teams.csv`
read (here the `teams_list` parameter) and any request.  `60 / call_rate`
raises `ZeroDivisionError` in Python when `call_rate = 0`. -/
def collect_team_players (club_link_dict : List (String × String))
    (teams_list : List String) (call_rate : Nat) :
    Except FBRefIdsError (List String) :=
  if call_rate > 10 then .error (.rateLimit "Call rate is higher than 10")
  else if call_rate = 0 then .error (.otherError "ZeroDivisionError: division by zero")
  else
    let _wait_time := 60 / call_rate
    teams_list.foldl (collectStep club_link_dict) (.ok [])

/-! ## Generic list helpers shared by the dataframe model -/

/-- The scan behind `dedupFirstBy`, carrying the key values already seen. -/
def dedupFirstByAux {α β : Type} [DecidableEq β] (key : α → β) (seen : List β) :
    List α → List α
  | [] => []
  | x :: xs =>
    if key x ∈ seen then dedupFirstByAux key seen xs
    else x :: dedupFirstByAux key (key x :: seen) xs

/-- `pandas.DataFrame.drop_duplicates(key, keep="first")`: keep, for each key
value, the first row carrying it, preserving order. -/
def dedupFirstBy {α β : Type} [DecidableEq β] (key : α → β) (l : List α) : List α :=
  dedupFirstByAux key [] l

/-- Insert for a stable insertion sort: scan while `keep x y` holds, place `x`
in front of the first element where it fails. -/
def insertOrd {α : Type} (keep : α → α → Bool) (x : α) : List α → List α
  | [] => [x]
  | y :: ys => if keep x y then y :: insertOrd keep x ys else x :: y :: ys

/-- Stable insertion sort driven by `keep`. -/
def sortOrd {α : Type} (keep : α → α → Bool) (l : List α) : List α :=
  l.foldr (insertOrd keep) []

/-- Fuel-driven split of a character list at every occurrence of a non-empty
separator; the accumulator holds the current piece reversed.  Fuel beyond the
input length never runs out. -/
def splitCharsAux (sep : List Char) : Nat → List Char → List Char → List (List Char)
  | 0, s, acc => [acc.reverse ++ s]
  | _fuel + 1, [], acc => [acc.reverse]
  | fuel + 1, c :: rest, acc =>
    if sep.isPrefixOf (c :: rest) then
      acc.reverse :: splitCharsAux sep fuel (List.drop sep.length (c :: rest)) []
    else splitCharsAux sep fuel rest (c :: acc)

/-- Python `s.split(sep)` (and `String.splitOn`) for a non-empty separator. -/
def pySplit (s : String) (sep : String) : List String :=
  if sep.data.isEmpty then [s]
  else (splitCharsAux sep.data (s.data.length + 1) s.data []).map (fun l => (⟨l⟩ : String))

/-- Python `s.replace(pat, rep)` for a non-empty pattern: split on the pattern
and rejoin with the replacement. -/
def pyReplace (s pat rep : String) : String :=
  String.intercalate rep (pySplit s pat)

/-- Boolean substring test on character lists. -/
def listContains (hay pat : List Char) : Bool :=
  match hay with
  | [] => pat.isEmpty
  | _ :: t => pat.isPrefixOf hay || listContains t pat

/-- `pandas.Series.str.contains(pat, case=False)`: case-insensitive substring
test (the names fed to it are plain words, so the default regex engine acts as
a literal substring search). -/
def containsCaseless (hay needle : String) : Bool :=
  listContains (hay.data.map Char.toLower) (needle.data.map Char.toLower)

/-! ## Data model of the reconciliation (processors/merge_ids.py)

The FPL roster (`player_idlist.csv`), the FBRef roster (`fbref_ids.csv`), the
merged working frame, the trimmed matched frame and the final compiled frame
are each a list of typed rows; a NaN cell is `none`. -/

/-- One row of the FPL id list: source-A `PlayerRecord`. -/
structure FplRow where
  first_name : String
  second_name : String
  id : Nat
deriving DecidableEq, Repr

/-- One row of the FBRef id list: source-B `PlayerRecord`. -/
structure FbrefRow where
  name : String
  id : String
deriving DecidableEq, Repr

/-- `load_dfs`: `full_name_abbr` is the first token of `first_name` plus the
last token of `second_name` (Python `str.split(" ")[0]` and `[-1]`). -/
def full_name_abbr (p : FplRow) : String :=
  ((pySplit p.first_name " ").headD "") ++ " " ++ ((pySplit p.second_name " ").getLastD "")

/-- `load_dfs`: `full_name_full` is first and second name joined by a space. -/
def full_name_full (p : FplRow) : String :=
  p.first_name ++ " " ++ p.second_name

/-- `load_dfs`: the FBRef `first_name` column, from `name.str.split(' ', n=1)`. -/
def fbref_first_name (f : FbrefRow) : String :=
  (pySplit f.name " ").headD ""

/-- `load_dfs`: the FBRef `second_name` column, `NaN` when the name has no
space (`str.split(' ', n=1, expand=True)` yields `None` there). -/
def fbref_second_name (f : FbrefRow) : Option String :=
  match pySplit f.name " " with
  | [] => none
  | [_] => none
  | _ :: rest => some (String.intercalate " " rest)

/-- One row of the merged working frame produced by
`pd.merge(fpl_ids, fbref_ids, "left", on=["first_name","second_name"])` and
carried through fuzzy matching and sifting.  `fuzzy_match` starts as `none`
(the column does not exist yet / is NaN). -/
structure Row where
  first_name : String
  second_name : String
  id_fpl : Nat
  full_name_abbr : String
  full_name_full : String
  name : Option String
  id_fbref : Option String
  fuzzy_match : Option String
deriving DecidableEq, Repr

/-- The join condition of the exact merge: equality on the two name columns
(a NaN FBRef `second_name` never joins). -/
def joinsWith (p : FplRow) (f : FbrefRow) : Bool :=
  fbref_first_name f = p.first_name && fbref_second_name f = some p.second_name

/-- The rows a single FPL player contributes to the left merge: one row per
matching FBRef row, or a single row with NaN FBRef columns when none match. -/
def expandJoin (fbref_ids : List FbrefRow) (p : FplRow) : List Row :=
  match fbref_ids.filter (joinsWith p) with
  | [] => [⟨p.first_name, p.second_name, p.id, full_name_abbr p, full_name_full p,
            none, none, none⟩]
  | hits => hits.map (fun f =>
      ⟨p.first_name, p.second_name, p.id, full_name_abbr p, full_name_full p,
       some f.name, some f.id, none⟩)

/-- Step 1 of `merge_fpl_fbref_ids`: the exact left merge of the two rosters. -/
def exact_join (fpl_ids : List FplRow) (fbref_ids : List FbrefRow) : List Row :=
  fpl_ids.flatMap (expandJoin fbref_ids)

/-- One row of the previous season's `player_compiled_ids.csv`, restricted to
the three columns the carry-forward selects. -/
structure PrevRow where
  first_name_fpl : String
  second_name_fpl : String
  id_fbref : Option String
deriving DecidableEq, Repr

/-- The rows one merged row contributes to the previous-season left merge:
one per matching previous record (with `combine_first` filling `id_fbref`
only where it is NaN), or the row itself when none match. -/
def carryExpand (previous_merged_ids : List PrevRow) (r : Row) : List Row :=
  match previous_merged_ids.filter
      (fun q => q.first_name_fpl = r.first_name && q.second_name_fpl = r.second_name) with
  | [] => [r]
  | hits => hits.map (fun q =>
      { r with id_fbref := r.id_fbref.orElse (fun _ => q.id_fbref) })

/-- Step 2 of `merge_fpl_fbref_ids`: left merge against the previous season's
compiled ids on the name pair, then `combine_first` — `id_fbref` is filled
from the old record only where the current value is NaN. -/
def carry_forward (merged : List Row) (previous_merged_ids : List PrevRow) : List Row :=
  merged.flatMap (carryExpand previous_merged_ids)

/-- The accept-if-at-threshold core of `fuzzy_match` as used by the pipeline,
where the scorer (`process.extractOne` in the source) is total because the
choice list of a run is the non-empty FBRef name column. -/
def fuzzy_match_run (name : String) (choices : List String) (threshold : Nat)
    (scorer : String → List String → String × Nat) : Option String :=
  let best := scorer name choices
  if threshold ≤ best.2 then some best.1 else none

/-- `perform_fuzzy_matching_and_sifting`, first statement: set the
`fuzzy_match` column by applying `fuzzy_match` with threshold 95 to
`full_name_abbr` against the whole FBRef name column, independently per row. -/
def apply_fuzzy (scorer : String → List String → String × Nat)
    (fbref_ids : List FbrefRow) (unmatched : List Row) : List Row :=
  unmatched.map (fun r =>
    { r with fuzzy_match := fuzzy_match_run r.full_name_abbr (fbref_ids.map (·.name)) 95 scorer })

/-- The per-row update of `map_name_match`: a row with a non-NaN
`fuzzy_match` whose matched name occurs in the FBRef frame receives the first
matching id. -/
def mapNameRow (fbref_df : List FbrefRow) (r : Row) : Row :=
  match r.fuzzy_match with
  | none => r
  | some m =>
    match fbref_df.find? (fun f => f.name = m) with
    | some f => { r with id_fbref := some f.id }
    | none => r

/-- `map_name_match` from `processors/merge_ids.py`: for each row with a
non-NaN `fuzzy_match`, look the matched name up in the FBRef frame and, when
found, write the first matching id into `id_fbref`.  (The trailing
`df.update(df.loc[matched_indices])` updates the frame with its own rows and
is a no-op.) -/
def map_name_match (df : List Row) (fbref_df : List FbrefRow) : List Row :=
  df.map (mapNameRow fbref_df)

/-! ## `sift_names` (processors/merge_ids.py)

Interactive disambiguation.  The console user is an oracle `pick` mapping the
row position and the displayed candidate list to the selection finally
accepted by the input loop (`none` for an empty answer or `0`; invalid
entries are re-prompted in the source, so only the accepted entry is
modelled).  `remove_special_letters` performs a Unicode NFKD
diacritics-stripping normalization whose character tables live outside this
embedding; it is the `strip` parameter, and every theorem below holds for any
such function.  `sorted_fuzzy_match`'s scorer `process.extract` is the
per-candidate score function `score` (it scores each choice, keeps the best
five and lists them by descending score). -/

/-- The `'strict' | 'loose'` parameter of `sift_names`. -/
inductive SiftLevel where
  | strict
  | loose
deriving DecidableEq

/-- The `'first' | 'last'` parameter of `sift_names`. -/
inductive SiftNameKey where
  | first
  | last
deriving DecidableEq

/-- The non-NaN values of the `fuzzy_match` column: the names already claimed
for some player. -/
def foundNames (df : List Row) : List String :=
  df.filterMap (·.fuzzy_match)

/-- `sorted_fuzzy_match` from `processors/merge_ids.py`: score every choice,
order by descending score (`process.extract` keeps its best five). -/
def sorted_fuzzy_match (score : String → String → Nat) (name : String)
    (choices : List String) : List (String × Nat) :=
  (sortOrd (fun x y => x.2 < y.2) (choices.map (fun c => (c, score name c)))).take 5

/-- The `need_matching_names` list of one `sift_names` iteration: FBRef names
containing the normalized filter fragment, minus the names already claimed in
the current frame. -/
def siftCandidates (fbref_df : List FbrefRow) (nameKey : SiftNameKey)
    (strip : String → String) (df : List Row) (row : Row) : List String :=
  let filter_name :=
    match nameKey with
    | .first => strip row.first_name
    | .last => strip ((pySplit row.second_name " ").getLastD "")
  let fbref_names := (fbref_df.filter (fun f => containsCaseless f.name filter_name)).map (·.name)
  let found_names := foundNames df
  fbref_names.filter (fun n => decide (n ∉ found_names))

/-- The `related_names` list shown to the user in one `sift_names` iteration:
the surviving candidates, re-ranked by fuzzy score in `'strict'` mode and in
FBRef order in `'loose'` mode. -/
def siftRelated (fbref_df : List FbrefRow) (level : SiftLevel) (nameKey : SiftNameKey)
    (strip : String → String) (score : String → String → Nat)
    (df : List Row) (row : Row) : List String :=
  match level with
  | .strict =>
    (sorted_fuzzy_match score
      (match nameKey with
       | .first => row.first_name
       | .last => row.second_name)
      (siftCandidates fbref_df nameKey strip df row)).map Prod.fst
  | .loose => siftCandidates fbref_df nameKey strip df row

/-- One iteration of the `sift_names` loop at row position `idx`: rows whose
`fuzzy_match` is already set are not offered; with no candidates the row is
skipped; otherwise the oracle's accepted selection (1-based) writes the chosen
name and its FBRef id into the row. -/
def siftAt (fbref_df : List FbrefRow) (level : SiftLevel) (nameKey : SiftNameKey)
    (strip : String → String) (score : String → String → Nat)
    (pick : Nat → List String → Option Nat) (df : List Row) (idx : Nat) : List Row :=
  match df[idx]? with
  | none => df
  | some row =>
    if row.fuzzy_match.isSome then df
    else if (siftCandidates fbref_df nameKey strip df row).isEmpty then df
    else
      match pick idx (siftRelated fbref_df level nameKey strip score df row) with
      | none => df
      | some choice =>
        if 1 ≤ choice ∧ choice ≤ (siftRelated fbref_df level nameKey strip score df row).length
        then
          match fbref_df.find? (fun f =>
            f.name = (siftRelated fbref_df level nameKey strip score df row).getD
              (choice - 1) "") with
          | some f =>
            df.set idx
              { row with
                fuzzy_match :=
                  some ((siftRelated fbref_df level nameKey strip score df row).getD
                    (choice - 1) ""),
                id_fbref := some f.id }
          | none => df
        else df

/-- `sift_names` from `processors/merge_ids.py`: iterate the rows whose
`fuzzy_match` is NaN, in order, re-reading the claimed-name list from the
frame updated so far. -/
def sift_names (fbref_df : List FbrefRow) (level : SiftLevel) (nameKey : SiftNameKey)
    (strip : String → String) (score : String → String → Nat)
    (pick : Nat → List String → Option Nat) (main_df : List Row) : List Row :=
  (List.range main_df.length).foldl (siftAt fbref_df level nameKey strip score pick) main_df

/-! ## `manual_sift` (processors/merge_ids.py) -/

/-- `urllib.parse.urlparse(url).path` for the URLs this flow receives: drop
the fragment after the first `#` and the query after the first `?`; when a
`scheme://` is present the path starts at the first `/` after the authority
(empty when there is none); otherwise the remainder is itself the path. -/
def urlPath (url : String) : String :=
  let noFrag := (pySplit url "#").headD ""
  let noQuery := (pySplit noFrag "?").headD ""
  match pySplit noQuery "://" with
  | [] => ""
  | [p] => p
  | _ :: rest =>
    match pySplit (String.intercalate "://" rest) "/" with
    | [] => ""
    | [_] => ""
    | _ :: segs => "/" ++ String.intercalate "/" segs

/-- The body of one `manual_sift` iteration.  An empty response only assigns
into the iteration's row copy (`row["id_fbref"] = np.NaN`), which does not
touch the frame.  Otherwise the URL path is split on `/`; with exactly 5
segments the FBRef id is segment 3 and the name is segment 4 with hyphens
replaced by spaces, else the id becomes NaN and the `name` variable still
holds the player's `full_name_full`, which is what gets written. -/
def manualStep (row : Row) (response : String) : Row :=
  if response = "" then row
  else
    let path_content_list := pySplit (urlPath response) "/"
    if path_content_list.length = 5 then
      { row with id_fbref := some (path_content_list.getD 3 ""),
                 name := some (pyReplace (path_content_list.getD 4 "") "-" " ") }
    else
      { row with id_fbref := none, name := some row.full_name_full }

/-- One `manual_sift` iteration at row position `idx`: already-resolved rows
are not prompted for; otherwise the row is replaced by `manualStep` on the
entered response. -/
def manualAt (urls : Nat → String) (acc : List Row) (idx : Nat) : List Row :=
  match acc[idx]? with
  | none => acc
  | some row =>
    if row.id_fbref.isSome then acc
    else acc.set idx (manualStep row (urls idx))

/-- `manual_sift` from `processors/merge_ids.py`: prompt once for each row
whose `id_fbref` is NaN, in order; the console user is the oracle `urls`
keyed by row position (an empty string is the skip answer). -/
def manual_sift (urls : Nat → String) (main_df : List Row) : List Row :=
  (List.range main_df.length).foldl (manualAt urls) main_df

/-- `perform_fuzzy_matching_and_sifting` from `runners/run_all.py`: the
automatic fuzzy pass with threshold 95, the id write-back, strict-last
sifting, loose-first sifting, then the manual URL fallback. -/
def perform_fuzzy_matching_and_sifting (fbref_ids : List FbrefRow)
    (scorer : String → List String → String × Nat) (strip : String → String)
    (score : String → String → Nat)
    (pick1 pick2 : Nat → List String → Option Nat) (urls : Nat → String)
    (unmatched : List Row) : List Row :=
  let afterFuzzy := map_name_match (apply_fuzzy scorer fbref_ids unmatched) fbref_ids
  let afterStrict := sift_names fbref_ids .strict .last strip score pick1 afterFuzzy
  let afterLoose := sift_names fbref_ids .loose .first strip score pick2 afterStrict
  manual_sift urls afterLoose

/-! ## `process_player_matches` and the full merge (processors/merge_ids.py,
runners/run_all.py) -/

/-- One row of the trimmed matched frame (`columns_to_keep` in
`process_player_matches` and the `matched` split of `merge_fpl_fbref_ids`). -/
structure MatchedRow where
  first_name : String
  second_name : String
  name : Option String
  id_fpl : Nat
  id_fbref : Option String
deriving DecidableEq, Repr

/-- One row of the final compiled frame after the closing rename. -/
structure FinalRow where
  first_name_fpl : String
  second_name_fpl : String
  id_fpl : Nat
  name_fbref : Option String
  id_fbref : Option String
deriving DecidableEq, Repr

/-- The three FPL identity columns of a matched row. -/
def mCols (m : MatchedRow) : String × String × Nat :=
  (m.first_name, m.second_name, m.id_fpl)

/-- The three FPL identity columns of a working row. -/
def rCols (r : Row) : String × String × Nat :=
  (r.first_name, r.second_name, r.id_fpl)

/-- `process_player_matches`, first statement: the previously unmatched rows
whose `id_fbref` got resolved, with `name` overwritten by `fuzzy_match` and
trimmed to `columns_to_keep`. -/
def recoveredMatches (unmatched : List Row) : List MatchedRow :=
  (unmatched.filter (fun r => r.id_fbref.isSome)).map
    (fun r => ⟨r.first_name, r.second_name, r.fuzzy_match, r.id_fpl, r.id_fbref⟩)

/-- `df.sort_values("id_fpl")` on the identity triples (modelled as a stable
sort; the properties proved below do not depend on the sort kind). -/
def sortByIdFpl (l : List (String × String × Nat)) : List (String × String × Nat) :=
  sortOrd (fun x y => y.2.2 < x.2.2) l

/-- `process_player_matches` from `processors/merge_ids.py`: recover resolved
rows into the matched set, de-duplicate on `id_fpl` keeping the first
occurrence, list the still-missing players by full name, build the
de-duplicated sorted roster of identity triples, and left-merge the matched
frame back onto it, renaming to the final column names. -/
def process_player_matches (unmatched : List Row) (matched : List MatchedRow) :
    List FinalRow × List String :=
  let recovered_matches := recoveredMatches unmatched
  let matchedAll := matched ++ recovered_matches
  let matchedDedup := dedupFirstBy (·.id_fpl) matchedAll
  let missing_players := (unmatched.filter (fun r => r.id_fbref.isNone)).map (·.full_name_full)
  let all_players :=
    sortByIdFpl (dedupFirstBy (fun t => t) (matchedDedup.map mCols ++ unmatched.map rCols))
  let merged_df := all_players.map (fun t =>
    match matchedDedup.find? (fun m => mCols m = t) with
    | some m => (⟨t.1, t.2.1, t.2.2, m.name, m.id_fbref⟩ : FinalRow)
    | none => (⟨t.1, t.2.1, t.2.2, none, none⟩ : FinalRow))
  (merged_df, missing_players)

/-- `merge_fpl_fbref_ids` from `runners/run_all.py`: exact join, optional
previous-season carry-forward (the previous compiled file may be missing),
split into matched and unmatched, the fuzzy/sifting pass on the unmatched
rows only, and the final assembly. -/
def merge_fpl_fbref_ids (fpl_ids : List FplRow) (fbref_ids : List FbrefRow)
    (previous_merged_ids : Option (List PrevRow))
    (scorer : String → List String → String × Nat) (strip : String → String)
    (score : String → String → Nat)
    (pick1 pick2 : Nat → List String → Option Nat) (urls : Nat → String) :
    List FinalRow × List String :=
  let merged := exact_join fpl_ids fbref_ids
  let merged :=
    match previous_merged_ids with
    | some prev => carry_forward merged prev
    | none => merged
  let unmatched := merged.filter (fun r => r.id_fbref.isNone)
  let matched := (merged.filter (fun r => r.id_fbref.isSome)).map
    (fun r => (⟨r.first_name, r.second_name, r.name, r.id_fpl, r.id_fbref⟩ : MatchedRow))
  let unmatched :=
    perform_fuzzy_matching_and_sifting fbref_ids scorer strip score pick1 pick2 urls unmatched
  process_player_matches unmatched matched

/-! ## Gameweek merging (processors/collectors.py) -/

/-- A per-gameweek CSV as seen through `csv.DictReader`: its header and its
rows.  The row payload is abstract — `merge_gameweek` only copies rows and
adds the `GW` column. -/
structure GwFile (α : Type) where
  fieldnames : List String
  rows : List α
deriving DecidableEq

/-- One line of the merged output file: a written header, or a data row
tagged with its gameweek. -/
inductive OutLine (α : Type) where
  | header (fieldnames : List String)
  | data (row : α) (gw : Nat)
deriving DecidableEq

/-- The data rows of a merged file, with their `GW` tags. -/
def dataLines {α : Type} : List (OutLine α) → List (α × Nat)
  | [] => []
  | .header _ :: rest => dataLines rest
  | .data r g :: rest => (r, g) :: dataLines rest

/-- `merge_gameweek` from `processors/collectors.py`.  The filesystem is the
map `files` from gameweek number to its `gws/gw_N.csv` (`none` = missing →
`FileNotFoundError`); `output` is the merged file (`none` = does not exist).
An empty header raises `GameweekMergeError`; otherwise every row is tagged
with the gameweek and appended, writing the header first when the output file
is absent or empty. -/
def merge_gameweek {α : Type} (gameweek : Nat) (files : Nat → Option (GwFile α))
    (output : Option (List (OutLine α))) : Except String (Option (List (OutLine α))) :=
  match files gameweek with
  | none =>
    .error ("Gameweek file not found: gws/gw_" ++ String.mk (toDecimal gameweek) ++ ".csv")
  | some f =>
    if f.fieldnames.isEmpty then
      .error ("No fields found in gws/gw_" ++ String.mk (toDecimal gameweek) ++ ".csv")
    else
      let fieldnames := f.fieldnames ++ ["GW"]
      let existing := output.getD []
      let write_header := output.isNone || existing.isEmpty
      .ok (some (existing
        ++ (if write_header then [OutLine.header fieldnames] else [])
        ++ f.rows.map (fun r => OutLine.data r gameweek)))

/-- One iteration of the `merge_all_gameweeks` loop: run `merge_gameweek` and
either keep its output or leave the file as it was and record the error
report, continuing with the next gameweek. -/
def mergeStep {α : Type} (files : Nat → Option (GwFile α))
    (st : Option (List (OutLine α)) × List String) (gw : Nat) :
    Option (List (OutLine α)) × List String :=
  match merge_gameweek gw files st.1 with
  | .ok out => (out, st.2)
  | .error e => (st.1, st.2 ++ ["GW" ++ String.mk (toDecimal gw) ++ ": " ++ e])

/-- `merge_all_gameweeks` from `processors/collectors.py`: delete any existing
merged file, fold `merge_gameweek` over the inclusive gameweek range
collecting per-gameweek errors instead of aborting, and finally raise one
`GameweekMergeError` describing them when any occurred.  The result is the
final merged file, the collected error reports, and the raised error (if
any); the file writes persist even when the error is raised. -/
def merge_all_gameweeks {α : Type} (files : Nat → Option (GwFile α))
    (start_gw end_gw : Nat) (existing : Option (List (OutLine α))) :
    Option (List (OutLine α)) × List String × Option String :=
  let _ := existing
  let cleared : Option (List (OutLine α)) := none
  let folded := (List.range' start_gw (end_gw + 1 - start_gw)).foldl (mergeStep files) (cleared, [])
  (folded.1, folded.2,
    if folded.2.isEmpty then none
    else some ("Errors occurred during merging:\n" ++ String.intercalate "\n" folded.2))

/-! ## Concrete scorer instances used for evaluation -/

/-- `fuzzywuzzy.process.extractOne` over a per-candidate score function: the
highest-scoring candidate (the earliest on ties, as Python `max` picks the
first maximal element), modelled on non-empty choice lists only (`extractOne`
returns `None` on an empty one). -/
def extractOneModel (score : String → String → Nat) (name : String)
    (choices : List String) : String × Nat :=
  match choices with
  | [] => ("", 0)
  | c :: cs =>
    cs.foldl
      (fun best cand => if best.2 < score name cand then (cand, score name cand) else best)
      (c, score name c)

/-- The fragment of the `WRatio` scorer exercised by the concrete runs below:
identical strings score 100, anything else 0.  (`fuzzywuzzy` scores two equal
strings at 100.) -/
def scoreEq (a b : String) : Nat := if a = b then 100 else 0

/-! ## Concrete rows used by counterexamples and witnesses -/

/-- Two distinct FPL players who share the same full name — their
`full_name_abbr` values coincide, as happens for homonymous players. -/
def rowJohnA : Row := ⟨"John", "Smith", 1, "John Smith", "John Smith", none, none, none⟩

/-- See `rowJohnA`: the second John Smith, with a different `id_fpl`. -/
def rowJohnB : Row := ⟨"John", "Smith", 2, "John Smith", "John Smith", none, none, none⟩

/-- A one-player FBRef roster whose name both Johns match exactly. -/
def fbrefJohn : List FbrefRow := [⟨"John Smith", "js01"⟩]

/-- An unresolved working row used to exercise `manual_sift`. -/
def rowHaaland : Row := ⟨"Erling", "Haaland", 5, "Erling Haaland", "Erling Haaland",
  none, none, none⟩

/-- An unmatched row whose `id_fpl` collides with `matchedAB` under different
name columns. -/
def unmatchedCD : Row := ⟨"C", "D", 1, "C D", "C D", none, none, none⟩

/-- A matched row with `id_fpl = 1` and names different from `unmatchedCD`. -/
def matchedAB : MatchedRow := ⟨"A", "B", some "X", 1, some "x"⟩

/-- An unmatched row with a fresh `id_fpl`, compatible with `matchedAB`. -/
def unmatchedCD2 : Row := ⟨"C", "D", 2, "C D", "C D", none, none, none⟩

/-- The FPL roster row of the spec's worked example. -/
def fplSalah : FplRow := ⟨"Mohamed", "Salah", 1⟩

/-- The FBRef roster row of the spec's worked example. -/
def fbrefSalah : FbrefRow := ⟨"Mohamed Salah", "e342ad68"⟩

/-! # Theorems

One theorem (plus, where required, one closed witness or counterexample) per
claim of the specification review, preceded by the supporting lemmas. -/

/-! ## C4 — `fuzzy_match` threshold boundary -/

/-- **C4.** For every name, non-empty choice list and threshold in `[0,100]`,
`fuzzy_match` returns the scorer's best candidate exactly when its score is at
least the threshold and `NaN` (`none`) otherwise; a candidate scoring
`threshold - 1` is rejected and one scoring exactly `threshold` is
accepted. -/
theorem fuzzy_match_threshold_boundary (name : String) (choices : List String)
    (threshold : Nat) (scorer : String → List String → Option (String × Nat))
    (best : String) (score : Nat)
    (hne : choices ≠ []) (hth : threshold ≤ 100)
    (hs : scorer name choices = some (best, score)) :
    (fuzzy_match name choices threshold scorer = .ok (some best) ↔ threshold ≤ score)
    ∧ (score < threshold → fuzzy_match name choices threshold scorer = .ok none)
    ∧ (score + 1 = threshold → fuzzy_match name choices threshold scorer = .ok none)
    ∧ (score = threshold → fuzzy_match name choices threshold scorer = .ok (some best)) := by
  have _ := hne
  have hfm : fuzzy_match name choices threshold scorer
      = .ok (if threshold ≤ score then some best else none) := by
    unfold fuzzy_match
    rw [if_pos hth, hs]
  rw [hfm]
  by_cases hc : threshold ≤ score
  · rw [if_pos hc]
    refine ⟨⟨fun _ => hc, fun _ => rfl⟩, fun h => absurd hc (by omega),
      fun h => absurd hc (by omega), fun _ => rfl⟩
  · rw [if_neg hc]
    refine ⟨⟨fun h => ?_, fun h => absurd h hc⟩, fun _ => rfl, fun _ => rfl,
      fun h => absurd (le_of_eq h.symm) hc⟩
    exact absurd h (by simp)

/-- Witness for C4 at a concrete scorer run: score 95 at threshold 95 is
accepted, score 94 at threshold 95 is rejected. -/
theorem fuzzy_match_threshold_boundary_witness :
    ((["Mohamed Salah"] : List String) ≠ [] ∧ (95 : Nat) ≤ 100)
    ∧ fuzzy_match "Mo Salah" ["Mohamed Salah"] 95
        (fun _ _ => some ("Mohamed Salah", 95)) = .ok (some "Mohamed Salah")
    ∧ fuzzy_match "Mo Salah" ["Mohamed Salah"] 95
        (fun _ _ => some ("Mohamed Salah", 94)) = .ok none :=
  ⟨⟨by decide, by decide⟩,
   (fuzzy_match_threshold_boundary "Mo Salah" ["Mohamed Salah"] 95
      (fun _ _ => some ("Mohamed Salah", 95)) "Mohamed Salah" 95
      (by decide) (by decide) rfl).2.2.2 rfl,
   (fuzzy_match_threshold_boundary "Mo Salah" ["Mohamed Salah"] 95
      (fun _ _ => some ("Mohamed Salah", 94)) "Mohamed Salah" 94
      (by decide) (by decide) rfl).2.2.1 rfl⟩

/-! ## C5 — `make_fpl_request` on HTTP 429 -/

/-- **C5.** The claim says a 429 response with attempts remaining sleeps for
the `Retry-After` duration and retries.  The code computes that duration into
`retry_delay` but the `HTTPError` handler then raises `FPLRequestError`
unconditionally, so a first-attempt 429 with `Retry-After: 7` and
`max_retries = 3` produces an immediate request error with no sleep and no
second request — contradicting both the claim and the function's own
stated retry purpose (the recomputed delay is dead code otherwise). -/
theorem make_fpl_request_429_no_retry :
    make_fpl_request (fun _ => (FplResponse.httpError 429 (some 7) : FplResponse Unit)) 3 5
      = ([], .error (.requestError "HTTP 429 error")) := by
  rfl

/-! ## C6 — `collect_team_players` rate check -/

/-- `collectStep` never produces the rate-limit error if its accumulator does
not already carry one. -/
theorem collectStep_no_rateLimit (club_link_dict : List (String × String))
    (acc : Except FBRefIdsError (List String)) (team : String)
    (h : ∀ m, acc ≠ .error (.rateLimit m)) :
    ∀ m, collectStep club_link_dict acc team ≠ .error (.rateLimit m) := by
  intro m
  unfold collectStep
  match acc with
  | .error e => exact h m
  | .ok links =>
    cases club_link_dict.find? (fun pr => pr.1 = team) with
    | none => simp
    | some pr => simp

/-- Folding `collectStep` preserves rate-limit-freedom. -/
theorem collect_fold_no_rateLimit (club_link_dict : List (String × String)) :
    ∀ (teams : List String) (acc : Except FBRefIdsError (List String)),
      (∀ m, acc ≠ .error (.rateLimit m)) →
      ∀ m, teams.foldl (collectStep club_link_dict) acc ≠ .error (.rateLimit m) := by
  intro teams
  induction teams with
  | nil => intro acc h m; exact h m
  | cons t ts ih =>
    intro acc h m
    exact ih (collectStep club_link_dict acc t) (collectStep_no_rateLimit _ _ _ h) m

/-- **C6.** A `call_rate` above 10 makes `collect_team_players` fail with the
rate-limit configuration error before any page request (the error carries no
request plan); a `call_rate` of 10 or below never produces that error. -/
theorem collect_team_players_rate_check (club_link_dict : List (String × String))
    (teams_list : List String) (call_rate : Nat) :
    (10 < call_rate →
      collect_team_players club_link_dict teams_list call_rate
        = .error (.rateLimit "Call rate is higher than 10"))
    ∧ (call_rate ≤ 10 → ∀ msg,
      collect_team_players club_link_dict teams_list call_rate ≠ .error (.rateLimit msg)) := by
  constructor
  · intro h
    unfold collect_team_players
    rw [if_pos (by omega)]
  · intro h msg
    unfold collect_team_players
    rw [if_neg (by omega)]
    by_cases h0 : call_rate = 0
    · rw [if_pos h0]
      simp
    · rw [if_neg h0]
      exact collect_fold_no_rateLimit club_link_dict teams_list (.ok []) (by simp) msg

/-- Witness for C6 at `call_rate = 11` (rejected) and `call_rate = 10`
(not rejected as a rate error). -/
theorem collect_team_players_rate_check_witness :
    (10 < 11 ∧ collect_team_players [] ["Arsenal"] 11
        = .error (.rateLimit "Call rate is higher than 10"))
    ∧ (10 ≤ 10 ∧ collect_team_players [] ["Arsenal"] 10
        ≠ .error (.rateLimit "Call rate is higher than 10")) :=
  ⟨⟨by decide, (collect_team_players_rate_check [] ["Arsenal"] 11).1 (by decide)⟩,
   ⟨by decide, (collect_team_players_rate_check [] ["Arsenal"] 10).2 (by decide) _⟩⟩

/-! ## C10 — `merge_all_gameweeks` ignores the previous output file -/

/-- **C10.** `merge_all_gameweeks` deletes any existing merged file before
appending, so its output is the same whatever merged file was on disk — in
particular running it twice over unchanged per-gameweek files leaves exactly
the file a single run produces, with no duplicated rows or headers. -/
theorem merge_all_gameweeks_idempotent {α : Type} (files : Nat → Option (GwFile α))
    (start_gw end_gw : Nat) (existing : Option (List (OutLine α))) :
    (merge_all_gameweeks files start_gw end_gw
        (merge_all_gameweeks files start_gw end_gw existing).1).1
      = (merge_all_gameweeks files start_gw end_gw existing).1 := rfl

/-! ## C8 — `manual_sift` URL acceptance -/

/-- **C8.** For every URL entered during the manual fallback, `manual_sift`
accepts it exactly when its path splits into five segments, setting
`id_fbref` to segment index 3 and `name` to the last segment with hyphens
turned into spaces; any other segment count leaves `id_fbref` as the
unresolved marker (and writes the player's full name back into `name`). -/
theorem manual_sift_url_acceptance (row : Row) (url : String)
    (hrow : row.id_fbref = none) (hurl : url ≠ "") :
    manual_sift (fun _ => url) [row]
      = [if (pySplit (urlPath url) "/").length = 5 then
           { row with
             id_fbref := some ((pySplit (urlPath url) "/").getD 3 ""),
             name := some (pyReplace ((pySplit (urlPath url) "/").getD 4 "") "-" " ") }
         else { row with id_fbref := none, name := some row.full_name_full }] := by
  unfold manual_sift manualAt manualStep
  simp [List.range_succ, hrow, hurl]

/-- Witness for C8: a genuine FBRef profile URL (five path segments) is
accepted with its id and slug-derived name, applying
`manual_sift_url_acceptance` at a concrete row. -/
theorem manual_sift_url_acceptance_witness :
    (rowHaaland.id_fbref = none
      ∧ ("https://fbref.com/en/players/1f44ac21/Erling-Haaland" : String) ≠ "")
    ∧ manual_sift (fun _ => "https://fbref.com/en/players/1f44ac21/Erling-Haaland") [rowHaaland]
      = [{ rowHaaland with id_fbref := some "1f44ac21", name := some "Erling Haaland" }] :=
  ⟨⟨rfl, by decide⟩,
   (manual_sift_url_acceptance rowHaaland
      "https://fbref.com/en/players/1f44ac21/Erling-Haaland" rfl (by decide)).trans
     (by decide)⟩

/-! ## C7 — season round trip: decimal lemmas -/

/-- The fuel of `toDecimalAux` is irrelevant once it exceeds the argument. -/
theorem toDecimalAux_congr (f1 : Nat) : ∀ (f2 n : Nat), n < f1 → n < f2 →
    toDecimalAux f1 n = toDecimalAux f2 n := by
  induction f1 with
  | zero => intro f2 n h1 _; omega
  | succ g ih =>
    intro f2 n h1 h2
    cases f2 with
    | zero => omega
    | succ k =>
      by_cases hn : n < 10
      · simp [toDecimalAux, hn]
      · simp only [toDecimalAux, if_neg hn]
        have hd : n / 10 < n := Nat.div_lt_self (by omega) (by omega)
        rw [ih k (n / 10) (by omega) (by omega)]

/-- The recursive unfolding of `toDecimal`. -/
theorem toDecimal_eq (n : Nat) :
    toDecimal n
      = if n < 10 then [natDigitChar n]
        else toDecimal (n / 10) ++ [natDigitChar (n % 10)] := by
  by_cases h : n < 10
  · simp [toDecimal, toDecimalAux, h]
  · rw [if_neg h]
    show toDecimalAux (n + 1) n = _
    rw [show toDecimalAux (n + 1) n
        = if n < 10 then [natDigitChar n]
          else toDecimalAux n (n / 10) ++ [natDigitChar (n % 10)] from rfl]
    rw [if_neg h]
    have hd : n / 10 < n := Nat.div_lt_self (by omega) (by omega)
    rw [toDecimalAux_congr n (n / 10 + 1) (n / 10) hd (Nat.lt_succ_self _)]
    rfl

/-- Digit characters are digits. -/
theorem natDigitChar_isDigit (n : Nat) (h : n < 10) : (natDigitChar n).isDigit := by
  interval_cases n <;> decide

/-- `digitVal?` inverts `natDigitChar` on digits. -/
theorem digitVal?_natDigitChar (n : Nat) (h : n < 10) : digitVal? (natDigitChar n) = some n := by
  interval_cases n <;> decide

/-- A decimal rendering is never empty. -/
theorem toDecimal_ne_nil (n : Nat) : toDecimal n ≠ [] := by
  rw [toDecimal_eq]
  split <;> simp

/-- Every character of a decimal rendering is a digit. -/
theorem toDecimal_all_digits (n : Nat) : ∀ c ∈ toDecimal n, c.isDigit := by
  induction n using Nat.strong_induction_on with
  | _ n ih =>
    intro c hc
    rw [toDecimal_eq] at hc
    by_cases h : n < 10
    · rw [if_pos h] at hc
      simp only [List.mem_singleton] at hc
      subst hc
      exact natDigitChar_isDigit n h
    · rw [if_neg h] at hc
      rcases List.mem_append.mp hc with h1 | h2
      · exact ih (n / 10) (Nat.div_lt_self (by omega) (by omega)) c h1
      · simp only [List.mem_singleton] at h2
        subst h2
        exact natDigitChar_isDigit (n % 10) (by omega)

/-- `parseNatAux` over an append runs the two halves in sequence. -/
theorem parseNatAux_append (l1 : List Char) : ∀ (acc : Nat) (l2 : List Char),
    parseNatAux acc (l1 ++ l2)
      = match parseNatAux acc l1 with
        | some m => parseNatAux m l2
        | none => none := by
  induction l1 with
  | nil => intro acc l2; rfl
  | cons c cs ih =>
    intro acc l2
    show parseNatAux acc (c :: (cs ++ l2)) = _
    cases hd : digitVal? c with
    | some d => simp [parseNatAux, hd, ih]
    | none => simp [parseNatAux, hd]

/-- Parsing a decimal rendering recovers the value (with the accumulator
shifted by the rendering's length). -/
theorem parseNatAux_toDecimal (n : Nat) : ∀ acc : Nat,
    parseNatAux acc (toDecimal n) = some (acc * 10 ^ (toDecimal n).length + n) := by
  induction n using Nat.strong_induction_on with
  | _ n ih =>
    intro acc
    by_cases h : n < 10
    · rw [toDecimal_eq, if_pos h]
      simp [parseNatAux, digitVal?_natDigitChar n h]
    · rw [toDecimal_eq, if_neg h]
      rw [parseNatAux_append]
      rw [ih (n / 10) (Nat.div_lt_self (by omega) (by omega)) acc]
      show parseNatAux (acc * 10 ^ (toDecimal (n / 10)).length + n / 10)
          [natDigitChar (n % 10)] = _
      simp only [parseNatAux, digitVal?_natDigitChar (n % 10) (by omega : n % 10 < 10)]
      rw [List.length_append, List.length_singleton]
      congr 1
      rw [pow_succ, ← mul_assoc]
      generalize acc * 10 ^ (toDecimal (n / 10)).length = A
      omega

/-- Python `int` inverts Python `str` on natural numbers. -/
theorem pyIntChars_toDecimal (n : Nat) : pyIntChars (toDecimal n) = some (n : Int) := by
  obtain ⟨c, cs, hcs⟩ := List.exists_cons_of_ne_nil (toDecimal_ne_nil n)
  have hdig : c.isDigit := toDecimal_all_digits n c (by rw [hcs]; exact List.mem_cons_self c cs)
  have hnotdash : ¬ (c = '-') := by
    intro h
    rw [h] at hdig
    exact absurd hdig (by decide)
  rw [hcs]
  show (if c = '-' then
          if cs.isEmpty then none
          else (parseNatAux 0 cs).map (fun n => -(n : Int))
        else (parseNatAux 0 (c :: cs)).map (fun n => (n : Int)))
      = some (n : Int)
  rw [if_neg hnotdash, ← hcs, parseNatAux_toDecimal n 0]
  simp

/-- Digit count of a decimal rendering from a power-of-ten bracketing. -/
theorem toDecimal_length (k : Nat) : ∀ n, 10 ^ k ≤ n → n < 10 ^ (k + 1) →
    (toDecimal n).length = k + 1 := by
  induction k with
  | zero =>
    intro n _ h2
    rw [toDecimal_eq, if_pos (by simpa using h2)]
    rfl
  | succ g ih =>
    intro n h1 h2
    have hp : (10 : Nat) ≤ 10 ^ (g + 1) := by
      calc (10 : Nat) = 10 ^ 1 := (pow_one 10).symm
      _ ≤ 10 ^ (g + 1) := Nat.pow_le_pow_right (by omega) (by omega)
    have hge : ¬ n < 10 := by omega
    rw [toDecimal_eq, if_neg hge, List.length_append]
    have e1 : 10 ^ g ≤ n / 10 := by
      rw [Nat.le_div_iff_mul_le (by omega)]
      calc 10 ^ g * 10 = 10 ^ (g + 1) := (pow_succ 10 g).symm
      _ ≤ n := h1
    have e2 : n / 10 < 10 ^ (g + 1) := by
      rw [Nat.div_lt_iff_lt_mul (by omega)]
      calc n < 10 ^ (g + 1 + 1) := h2
      _ = 10 ^ (g + 1) * 10 := pow_succ 10 (g + 1)
    rw [ih (n / 10) e1 e2]
    rfl

/-- `pyStr` agrees with `toDecimal` on casts of naturals. -/
theorem pyStr_natCast (n : Nat) : pyStr (n : Int) = toDecimal n := by
  unfold pyStr
  rw [if_neg (by omega)]
  congr 1

/-- Taking the first four characters of a season string recovers the start
year's digits. -/
theorem seasonChars_take (a : Nat) (tl : List Char) (ha : (toDecimal a).length = 4) :
    (toDecimal a ++ tl).take 4 = toDecimal a := by
  rw [← ha, List.take_left]

/-- Dropping five characters of a season string recovers the end year's
digits. -/
theorem seasonChars_drop (a b : Nat) (ha : (toDecimal a).length = 4) :
    (toDecimal a ++ '-' :: toDecimal b).drop 5 = toDecimal b := by
  rw [show (5 : Nat) = (toDecimal a).length + 1 from by omega]
  rw [List.drop_append]
  rfl

/-- `get_previous_season` on an explicit character list. -/
theorem get_previous_season_mk (L : List Char) :
    get_previous_season ⟨L⟩
      = match pyIntChars (L.take 4), pyIntChars (L.drop 5) with
        | some sy, some ey => some ⟨pyStr (sy - 1) ++ '-' :: last2 (pyStr (ey - 1))⟩
        | _, _ => none := rfl

/-- `next_season` on an explicit character list. -/
theorem next_season_mk (L : List Char) :
    next_season ⟨L⟩
      = match pyIntChars (L.take 4), pyIntChars (L.drop 5) with
        | some sy, some ey => some ⟨pyStr (sy + 1) ++ '-' :: last2 (pyStr (ey + 1))⟩
        | _, _ => none := rfl

/-- **C7 (amended).** On season strings `YYYY-YY` whose start year is at least
1001 and whose two-digit end year is at least 11, `get_previous_season`
produces a well-formed season string and the forward-season map recovers the
original.  (The unamended claim fails at decade/century boundaries, see the
counterexample.) -/
theorem get_previous_season_roundtrip (start endY : Nat)
    (h1 : 1001 ≤ start) (h2 : start ≤ 9999) (h3 : 11 ≤ endY) (h4 : endY ≤ 99) :
    (get_previous_season ⟨toDecimal start ++ '-' :: toDecimal endY⟩).bind next_season
      = some ⟨toDecimal start ++ '-' :: toDecimal endY⟩ := by
  have e3 : (10 : Nat) ^ 3 = 1000 := by norm_num
  have e4 : (10 : Nat) ^ (3 + 1) = 10000 := by norm_num
  have e1 : (10 : Nat) ^ 1 = 10 := by norm_num
  have e2 : (10 : Nat) ^ (1 + 1) = 100 := by norm_num
  have lenS : (toDecimal start).length = 4 :=
    toDecimal_length 3 start (by omega) (by omega)
  have lenS' : (toDecimal (start - 1)).length = 4 :=
    toDecimal_length 3 (start - 1) (by omega) (by omega)
  have lenE : (toDecimal endY).length = 2 :=
    toDecimal_length 1 endY (by omega) (by omega)
  have lenE' : (toDecimal (endY - 1)).length = 2 :=
    toDecimal_length 1 (endY - 1) (by omega) (by omega)
  have hl2 : last2 (toDecimal (endY - 1)) = toDecimal (endY - 1) := by
    unfold last2
    rw [lenE']
    simp
  have hl2' : last2 (toDecimal endY) = toDecimal endY := by
    unfold last2
    rw [lenE]
    simp
  have hcast1 : (start : Int) - 1 = ((start - 1 : Nat) : Int) := by omega
  have hcast2 : (endY : Int) - 1 = ((endY - 1 : Nat) : Int) := by omega
  have hcast3 : ((start - 1 : Nat) : Int) + 1 = ((start : Nat) : Int) := by omega
  have hcast4 : ((endY - 1 : Nat) : Int) + 1 = ((endY : Nat) : Int) := by omega
  rw [get_previous_season_mk, seasonChars_take start _ lenS,
    seasonChars_drop start endY lenS, pyIntChars_toDecimal, pyIntChars_toDecimal]
  show next_season ⟨pyStr ((start : Int) - 1) ++ '-' :: last2 (pyStr ((endY : Int) - 1))⟩ = _
  rw [hcast1, hcast2, pyStr_natCast, pyStr_natCast, hl2]
  rw [next_season_mk, seasonChars_take (start - 1) _ lenS',
    seasonChars_drop (start - 1) (endY - 1) lenS', pyIntChars_toDecimal, pyIntChars_toDecimal]
  show some (⟨pyStr (((start - 1 : Nat) : Int) + 1)
      ++ '-' :: last2 (pyStr (((endY - 1 : Nat) : Int) + 1))⟩ : String)
    = some (⟨toDecimal start ++ '-' :: toDecimal endY⟩ : String)
  rw [hcast3, hcast4, pyStr_natCast, pyStr_natCast, hl2']

/-- **C7 (counterexample).** `"2000-01"` is a valid `YYYY-YY` season string,
yet `get_previous_season` renders the previous season as the malformed
`"1999-0"` and the forward map then yields `"2000-1"`, not the original
string: the round trip fails at the `-01`/`-10` decade boundary. -/
theorem get_previous_season_roundtrip_counterexample :
    (get_previous_season "2000-01").bind next_season = some "2000-1"
      ∧ ("2000-1" : String) ≠ "2000-01" := by
  constructor
  · decide
  · decide

/-- Witness for the amended C7 at the 2020-21 season. -/
theorem get_previous_season_roundtrip_witness :
    (1001 ≤ 2020 ∧ 2020 ≤ 9999 ∧ 11 ≤ 21 ∧ 21 ≤ 99)
    ∧ (get_previous_season ⟨toDecimal 2020 ++ '-' :: toDecimal 21⟩).bind next_season
      = some ⟨toDecimal 2020 ++ '-' :: toDecimal 21⟩ :=
  ⟨⟨by decide, by decide, by decide, by decide⟩,
   get_previous_season_roundtrip 2020 21 (by decide) (by decide) (by decide) (by decide)⟩

/-! ## Generic list lemmas shared by several claims -/

/-- In a duplicate-free list, filtering by a predicate that only `x` satisfies
yields exactly `[x]`. -/
theorem filter_eq_singleton_of_nodup {α : Type} (p : α → Bool) (l : List α) (x : α)
    (hn : l.Nodup) (hx : x ∈ l) (hpx : p x) (huniq : ∀ y ∈ l, p y → y = x) :
    l.filter p = [x] := by
  induction l with
  | nil => cases hx
  | cons h t ih =>
    have hnd := List.nodup_cons.mp hn
    rcases List.mem_cons.mp hx with rfl | hxt
    · rw [List.filter_cons_of_pos hpx]
      have ht : t.filter p = [] := by
        rw [List.filter_eq_nil_iff]
        intro a ha hpa
        have := huniq a (List.mem_cons_of_mem _ ha) hpa
        subst this
        exact absurd ha hnd.1
      rw [ht]
    · have hph : ¬ (p h = true) := by
        intro hp
        have := huniq h (List.mem_cons_self h t) hp
        subst this
        exact hnd.1 hxt
      rw [List.filter_cons_of_neg (by simpa using hph)]
      exact ih hnd.2 hxt (fun y hy hpy => huniq y (List.mem_cons_of_mem _ hy) hpy)

/-- `find?` returns the unique element satisfying the predicate. -/
theorem find?_eq_some_of_unique {α : Type} (p : α → Bool) (l : List α) (x : α)
    (hx : x ∈ l) (hpx : p x) (huniq : ∀ y ∈ l, p y → y = x) :
    l.find? p = some x := by
  induction l with
  | nil => cases hx
  | cons h t ih =>
    by_cases hp : p h
    · rw [List.find?_cons_of_pos _ hp]
      exact congrArg some (huniq h (List.mem_cons_self h t) hp)
    · rw [List.find?_cons_of_neg _ hp]
      apply ih
      · rcases List.mem_cons.mp hx with rfl | hxt
        · exact absurd hpx hp
        · exact hxt
      · intro y hy hpy
        exact huniq y (List.mem_cons_of_mem _ hy) hpy

/-! ## C9 — merging with one missing gameweek file -/

/-- `dataLines` distributes over append. -/
theorem dataLines_append {α : Type} (a b : List (OutLine α)) :
    dataLines (a ++ b) = dataLines a ++ dataLines b := by
  induction a with
  | nil => rfl
  | cons x t ih => cases x <;> simp [dataLines, ih]

/-- Tagged data rows project back to the tagged row list. -/
theorem dataLines_map_data {α : Type} (l : List α) (g : Nat) :
    dataLines (l.map (fun r => OutLine.data r g)) = l.map (fun r => (r, g)) := by
  induction l with
  | nil => rfl
  | cons x t ih => simp [dataLines, ih]

/-- A conditional header line contributes no data rows. -/
theorem dataLines_header_if {α : Type} (b : Bool) (fns : List String) :
    dataLines (α := α) (if b then [OutLine.header fns] else []) = [] := by
  cases b <;> rfl

/-- Behaviour of the `merge_all_gameweeks` fold when exactly the files named
present are present: the data rows accumulate over the present gameweeks in
order, and each missing gameweek contributes exactly its error report. -/
theorem mergeStep_fold {α : Type} (files : Nat → Option (GwFile α)) (g₀ : Nat)
    (flds : Nat → List String) (rows : Nat → List α)
    (hmiss : files g₀ = none) :
    ∀ (L : List Nat) (out : Option (List (OutLine α))) (errs : List String),
      (∀ g ∈ L, g ≠ g₀ → files g = some ⟨flds g, rows g⟩) →
      (∀ g ∈ L, g ≠ g₀ → flds g ≠ []) →
      dataLines ((L.foldl (mergeStep files) (out, errs)).1.getD [])
        = dataLines (out.getD [])
          ++ (L.filter (fun g => g ≠ g₀)).flatMap (fun g => (rows g).map (fun r => (r, g)))
      ∧ (L.foldl (mergeStep files) (out, errs)).2
        = errs ++ (L.filter (fun g => g = g₀)).map (fun g =>
            "GW" ++ String.mk (toDecimal g) ++ ": "
              ++ ("Gameweek file not found: gws/gw_" ++ String.mk (toDecimal g) ++ ".csv")) := by
  intro L
  induction L with
  | nil =>
    intro out errs _ _
    simp
  | cons g L ih =>
    intro out errs hpres hflds
    by_cases hg : g = g₀
    · subst hg
      have hstep : mergeStep files (out, errs) g
          = (out, errs ++ ["GW" ++ String.mk (toDecimal g) ++ ": "
              ++ ("Gameweek file not found: gws/gw_" ++ String.mk (toDecimal g) ++ ".csv")]) := by
        unfold mergeStep merge_gameweek
        rw [hmiss]
      rw [List.foldl_cons, hstep]
      have hrec := ih out (errs ++ ["GW" ++ String.mk (toDecimal g) ++ ": "
          ++ ("Gameweek file not found: gws/gw_" ++ String.mk (toDecimal g) ++ ".csv")])
        (fun x hx hne => hpres x (List.mem_cons_of_mem _ hx) hne)
        (fun x hx hne => hflds x (List.mem_cons_of_mem _ hx) hne)
      refine ⟨?_, ?_⟩
      · rw [hrec.1]
        simp
      · rw [hrec.2]
        simp
    · have hf := hpres g (List.mem_cons_self g L) hg
      have hfe : ¬ (flds g).isEmpty = true := by
        have := hflds g (List.mem_cons_self g L) hg
        simpa [List.isEmpty_iff] using this
      have hstep : mergeStep files (out, errs)  g
          = (some ((out.getD [])
              ++ (if out.isNone || (out.getD []).isEmpty
                  then [OutLine.header (flds g ++ ["GW"])] else [])
              ++ (rows g).map (fun r => OutLine.data r g)), errs) := by
        unfold mergeStep merge_gameweek
        rw [hf]
        simp only [hfe]
        rfl
      rw [List.foldl_cons, hstep]
      have hrec := ih (some ((out.getD []
            ++ (if (out.isNone || (out.getD []).isEmpty) = true
                then [OutLine.header (flds g ++ ["GW"])] else []))
          ++ (rows g).map (fun r => OutLine.data r g))) errs
        (fun x hx hne => hpres x (List.mem_cons_of_mem _ hx) hne)
        (fun x hx hne => hflds x (List.mem_cons_of_mem _ hx) hne)
      refine ⟨?_, ?_⟩
      · rw [hrec.1]
        simp only [Option.getD_some, dataLines_append, dataLines_header_if, dataLines_map_data]
        rw [List.filter_cons_of_pos (by simpa using hg)]
        simp [List.append_assoc]
      · rw [hrec.2]
        rw [List.filter_cons_of_neg (by simpa using hg)]

/-- **C9.** Running `merge_all_gameweeks` over a range in which exactly one
gameweek's file is missing reports that omission (the collected error list
names exactly it, and the final `GameweekMergeError` is raised), while the
merged output file still holds the rows of every other gameweek in the range,
each tagged with its gameweek in the `GW` column: the merge of the remaining
gameweeks is not aborted. -/
theorem merge_all_gameweeks_missing_one {α : Type} (files : Nat → Option (GwFile α))
    (start_gw end_gw g₀ : Nat) (existing : Option (List (OutLine α)))
    (flds : Nat → List String) (rows : Nat → List α)
    (hlo : start_gw ≤ g₀) (hhi : g₀ ≤ end_gw)
    (hmiss : files g₀ = none)
    (hpres : ∀ g ∈ List.range' start_gw (end_gw + 1 - start_gw), g ≠ g₀ →
      files g = some ⟨flds g, rows g⟩)
    (hflds : ∀ g ∈ List.range' start_gw (end_gw + 1 - start_gw), g ≠ g₀ → flds g ≠ []) :
    dataLines ((merge_all_gameweeks files start_gw end_gw existing).1.getD [])
      = ((List.range' start_gw (end_gw + 1 - start_gw)).filter (fun g => g ≠ g₀)).flatMap
          (fun g => (rows g).map (fun r => (r, g)))
    ∧ (merge_all_gameweeks files start_gw end_gw existing).2.1
      = ["GW" ++ String.mk (toDecimal g₀) ++ ": "
          ++ ("Gameweek file not found: gws/gw_" ++ String.mk (toDecimal g₀) ++ ".csv")]
    ∧ (merge_all_gameweeks files start_gw end_gw existing).2.2.isSome := by
  have hmem : g₀ ∈ List.range' start_gw (end_gw + 1 - start_gw) := by
    rw [List.mem_range'_1]
    omega
  have hspec := mergeStep_fold files g₀ flds rows hmiss
    (List.range' start_gw (end_gw + 1 - start_gw)) none [] hpres hflds
  have hfilter : (List.range' start_gw (end_gw + 1 - start_gw)).filter (fun g => g = g₀)
      = [g₀] :=
    filter_eq_singleton_of_nodup _ _ g₀ (List.nodup_range' _ _ _ (by omega)) hmem (by simp)
      (fun y _ hy => by simpa using hy)
  rw [hfilter] at hspec
  refine ⟨?_, ?_, ?_⟩
  · rw [show (merge_all_gameweeks files start_gw end_gw existing).1
        = ((List.range' start_gw (end_gw + 1 - start_gw)).foldl
            (mergeStep files) (none, [])).1 from rfl]
    rw [hspec.1]
    rfl
  · rw [show (merge_all_gameweeks files start_gw end_gw existing).2.1
        = ((List.range' start_gw (end_gw + 1 - start_gw)).foldl
            (mergeStep files) (none, [])).2 from rfl]
    rw [hspec.2]
    rfl
  · rw [show (merge_all_gameweeks files start_gw end_gw existing).2.2
        = (if ((List.range' start_gw (end_gw + 1 - start_gw)).foldl
              (mergeStep files) (none, [])).2.isEmpty then none
           else some ("Errors occurred during merging:\n" ++ String.intercalate "\n"
              ((List.range' start_gw (end_gw + 1 - start_gw)).foldl
                (mergeStep files) (none, [])).2)) from rfl]
    rw [hspec.2]
    rfl

/-- Witness for C9: gameweeks 1–3 with gameweek 2's file missing; the merged
file holds the rows of gameweeks 1 and 3 tagged by gameweek, and the omission
of gameweek 2 is the only reported error. -/
theorem merge_all_gameweeks_missing_one_witness :
    ((1 ≤ 2 ∧ 2 ≤ 3)
      ∧ (fun g => if g = 2 then none else some (⟨["kickoff"], [g * 10]⟩ : GwFile Nat)) 2
          = none)
    ∧ dataLines ((merge_all_gameweeks
          (fun g => if g = 2 then none else some (⟨["kickoff"], [g * 10]⟩ : GwFile Nat))
          1 3 (some [OutLine.header ["stale"]])).1.getD [])
        = ((List.range' 1 (3 + 1 - 1)).filter (fun g => g ≠ 2)).flatMap
            (fun g => ([g * 10] : List Nat).map (fun r => (r, g))) :=
  ⟨⟨⟨by decide, by decide⟩, by decide⟩,
   (merge_all_gameweeks_missing_one
      (fun g => if g = 2 then none else some (⟨["kickoff"], [g * 10]⟩ : GwFile Nat))
      1 3 2 (some [OutLine.header ["stale"]])
      (fun _ => ["kickoff"]) (fun g => [g * 10])
      (by decide) (by decide) (by decide) (by decide) (by decide)).1⟩

/-! ## Sorting and claimed-name lemmas -/

/-- Inserting for the stable sort permutes with consing. -/
theorem insertOrd_perm {α : Type} (keep : α → α → Bool) (x : α) :
    ∀ l : List α, (insertOrd keep x l).Perm (x :: l) := by
  intro l
  induction l with
  | nil => exact List.Perm.refl _
  | cons y ys ih =>
    show (if keep x y then y :: insertOrd keep x ys else x :: y :: ys).Perm _
    by_cases h : keep x y
    · rw [if_pos h]
      exact (ih.cons y).trans (List.Perm.swap x y ys)
    · rw [if_neg h]

/-- The stable sort is a permutation of its input. -/
theorem sortOrd_perm {α : Type} (keep : α → α → Bool) :
    ∀ l : List α, (sortOrd keep l).Perm l := by
  intro l
  induction l with
  | nil => exact List.Perm.refl _
  | cons y ys ih =>
    show (insertOrd keep y (sortOrd keep ys)).Perm (y :: ys)
    exact (insertOrd_perm keep y (sortOrd keep ys)).trans (ih.cons y)

/-- Candidates surviving `sorted_fuzzy_match` come from the choice list. -/
theorem sorted_fuzzy_match_mem (score : String → String → Nat) (name : String)
    (choices : List String) (x : String × Nat)
    (hx : x ∈ sorted_fuzzy_match score name choices) : x.1 ∈ choices := by
  have h1 : x ∈ sortOrd (fun a b => a.2 < b.2) (choices.map (fun c => (c, score name c))) :=
    List.mem_of_mem_take hx
  have h2 : x ∈ choices.map (fun c => (c, score name c)) :=
    ((sortOrd_perm _ _).mem_iff).mp h1
  obtain ⟨c, hc, hcx⟩ := List.mem_map.mp h2
  rw [← hcx]
  exact hc

/-- Setting a row whose `fuzzy_match` was `NaN` to one carrying `some v` adds
exactly `v` to the claimed-name list, up to permutation. -/
theorem foundNames_set (v : String) (r : Row) (hr : r.fuzzy_match = some v) :
    ∀ (df : List Row) (idx : Nat) (row : Row), df[idx]? = some row →
      row.fuzzy_match = none →
      (foundNames (df.set idx r)).Perm (v :: foundNames df) := by
  intro df
  induction df with
  | nil => intro idx row hidx _; simp at hidx
  | cons h t ih =>
    intro idx row hidx hnone
    cases idx with
    | zero =>
      simp only [List.getElem?_cons_zero, Option.some.injEq] at hidx
      subst hidx
      simp only [List.set_cons_zero, foundNames, List.filterMap_cons, hr, hnone]
      exact List.Perm.refl _
    | succ i =>
      simp only [List.getElem?_cons_succ] at hidx
      simp only [List.set_cons_succ, foundNames, List.filterMap_cons]
      cases hh : h.fuzzy_match with
      | none => exact ih i row hidx hnone
      | some w => exact ((ih i row hidx hnone).cons w).trans (List.Perm.swap v w _)

/-! ## C1 — duplicate assignment in the automatic fuzzy pass -/

/-- **C1 (counterexample).** The automatic fuzzy pass (threshold-95 scoring
plus `map_name_match`) scores every unresolved player independently against
the full FBRef name column and has no claimed-candidate exclusion: two
distinct players who share the abbreviated name "John Smith" both receive the
fuzzy match "John Smith" and the same FBRef id `js01` in one pass.  (The real
scorer, `process.extractOne` with `WRatio`, scores the identical strings at
100 ≥ 95 exactly as the modelled scorer does here.) -/
theorem fuzzy_pass_duplicate_assignment :
    ((map_name_match (apply_fuzzy (extractOneModel scoreEq) fbrefJohn [rowJohnA, rowJohnB])
        fbrefJohn).map (fun r => (r.id_fpl, r.fuzzy_match, r.id_fbref)))
      = [(1, some "John Smith", some "js01"), (2, some "John Smith", some "js01")]
    ∧ rowJohnA.id_fpl ≠ rowJohnB.id_fpl := by
  constructor
  · decide
  · decide

/-- The claimed-name list of a frame never shrinks to a duplicate through one
`sift_names` iteration. -/
theorem siftAt_nodup (fbref_df : List FbrefRow) (level : SiftLevel) (nameKey : SiftNameKey)
    (strip : String → String) (score : String → String → Nat)
    (pick : Nat → List String → Option Nat) (df : List Row) (idx : Nat)
    (h : (foundNames df).Nodup) :
    (foundNames (siftAt fbref_df level nameKey strip score pick df idx)).Nodup := by
  have hrelsub : ∀ row : Row, ∀ n ∈ siftRelated fbref_df level nameKey strip score df row,
      n ∈ siftCandidates fbref_df nameKey strip df row := by
    intro row n hn
    unfold siftRelated at hn
    cases level with
    | strict =>
      obtain ⟨p, hp, hpn⟩ := List.mem_map.mp hn
      rw [← hpn]
      exact sorted_fuzzy_match_mem score _ _ p hp
    | loose => exact hn
  unfold siftAt
  split
  · exact h
  · rename_i row hidx
    split
    · exact h
    · rename_i hfm
      split
      · exact h
      · rename_i hneed
        split
        · exact h
        · rename_i choice hpick
          split
          · rename_i hch
            split
            · rename_i f hfind
              have hlt : choice - 1
                  < (siftRelated fbref_df level nameKey strip score df row).length := by
                omega
              have hsel : (siftRelated fbref_df level nameKey strip score df row).getD
                  (choice - 1) "" ∈ siftRelated fbref_df level nameKey strip score df row := by
                rw [List.getD_eq_getElem?_getD, List.getElem?_eq_getElem hlt]
                exact List.getElem_mem hlt
              have hselneed := hrelsub row _ hsel
              have hnotfound : (siftRelated fbref_df level nameKey strip score df row).getD
                  (choice - 1) "" ∉ foundNames df := by
                have := (List.mem_filter.mp hselneed).2
                exact of_decide_eq_true this
              have hperm := foundNames_set
                ((siftRelated fbref_df level nameKey strip score df row).getD (choice - 1) "")
                { row with
                  fuzzy_match :=
                    some ((siftRelated fbref_df level nameKey strip score df row).getD
                      (choice - 1) ""),
                  id_fbref := some f.id } rfl df idx row hidx
                (by cases hx : row.fuzzy_match with
                    | none => rfl
                    | some _ => rw [hx] at hfm; exact absurd rfl hfm)
              exact (hperm.nodup_iff).mpr (List.nodup_cons.mpr ⟨hnotfound, h⟩)
            · exact h
          · exact h

/-- A fold preserves any invariant its step preserves. -/
theorem foldl_preserve {α β : Type} (P : α → Prop) (step : α → β → α)
    (hstep : ∀ a b, P a → P (step a b)) :
    ∀ (L : List β) (a : α), P a → P (L.foldl step a) := by
  intro L
  induction L with
  | nil => intro a ha; exact ha
  | cons b t ih => intro a ha; exact ih (step a b) (hstep a b ha)

/-- **C1 (amended).** The duplicate-candidate exclusion lives in the
interactive sifting pass, not in the automatic fuzzy pass: `sift_names` only
ever offers candidates outside the current claimed-name list, so when the
assigned fuzzy-match names are pairwise distinct before the pass they remain
pairwise distinct after it — no two players end the pass sharing a
sift-assigned candidate. -/
theorem sift_names_no_duplicate_assignment (fbref_df : List FbrefRow) (level : SiftLevel)
    (nameKey : SiftNameKey) (strip : String → String) (score : String → String → Nat)
    (pick : Nat → List String → Option Nat) (main_df : List Row)
    (h : (foundNames main_df).Nodup) :
    (foundNames (sift_names fbref_df level nameKey strip score pick main_df)).Nodup :=
  foldl_preserve (fun d => (foundNames d).Nodup)
    (siftAt fbref_df level nameKey strip score pick)
    (fun a b ha => siftAt_nodup fbref_df level nameKey strip score pick a b ha)
    (List.range main_df.length) main_df h

/-- Witness for the amended C1: a concrete loose-first sifting run over one
unresolved row keeps the claimed names duplicate-free. -/
theorem sift_names_no_duplicate_assignment_witness :
    (foundNames [rowJohnA]).Nodup
    ∧ (foundNames (sift_names fbrefJohn .loose .first (fun s => s) scoreEq
        (fun _ _ => some 1) [rowJohnA])).Nodup :=
  ⟨by decide,
   sift_names_no_duplicate_assignment fbrefJohn .loose .first (fun s => s) scoreEq
     (fun _ _ => some 1) [rowJohnA] (by decide)⟩

/-! ## C2 — uniqueness of `id_fpl` in `process_player_matches` -/

/-- Elements of the de-duplication scan come from its input. -/
theorem dedupFirstByAux_subset {α β : Type} [DecidableEq β] (key : α → β) :
    ∀ (l : List α) (seen : List β) (x : α), x ∈ dedupFirstByAux key seen l → x ∈ l := by
  intro l
  induction l with
  | nil => intro seen x hx; cases hx
  | cons h t ih =>
    intro seen x hx
    unfold dedupFirstByAux at hx
    by_cases hs : key h ∈ seen
    · rw [if_pos hs] at hx
      exact List.mem_cons_of_mem _ (ih seen x hx)
    · rw [if_neg hs] at hx
      rcases List.mem_cons.mp hx with rfl | hx2
      · exact List.mem_cons_self _ _
      · exact List.mem_cons_of_mem _ (ih _ x hx2)

/-- The de-duplication scan emits pairwise-distinct key values, none of them
already seen. -/
theorem dedupFirstByAux_keys {α β : Type} [DecidableEq β] (key : α → β) :
    ∀ (l : List α) (seen : List β),
      ((dedupFirstByAux key seen l).map key).Nodup
      ∧ ∀ k ∈ (dedupFirstByAux key seen l).map key, k ∉ seen := by
  intro l
  induction l with
  | nil => intro seen; exact ⟨List.nodup_nil, by intro k hk; cases hk⟩
  | cons h t ih =>
    intro seen
    unfold dedupFirstByAux
    by_cases hs : key h ∈ seen
    · rw [if_pos hs]
      exact ih seen
    · rw [if_neg hs]
      have ihh := ih (key h :: seen)
      constructor
      · rw [List.map_cons]
        refine List.nodup_cons.mpr ⟨?_, ihh.1⟩
        intro hmem
        exact absurd (List.mem_cons_self (key h) seen) (ihh.2 (key h) hmem)
      · intro k hk
        rw [List.map_cons] at hk
        rcases List.mem_cons.mp hk with rfl | hk2
        · exact hs
        · intro hkseen
          exact absurd (List.mem_cons_of_mem _ hkseen) (ihh.2 k hk2)

/-- De-duplication keeps, for every key value not yet seen, exactly the first
element carrying it, as `find?` observes. -/
theorem dedupFirstByAux_find? {α β : Type} [DecidableEq β] (key : α → β) (k : β) :
    ∀ (l : List α) (seen : List β), k ∉ seen →
      (dedupFirstByAux key seen l).find? (fun x => key x = k)
        = l.find? (fun x => key x = k) := by
  intro l
  induction l with
  | nil => intro seen _; rfl
  | cons h t ih =>
    intro seen hk
    unfold dedupFirstByAux
    by_cases hs : key h ∈ seen
    · rw [if_pos hs]
      have hph : ¬ (key h = k) := by
        intro he
        rw [he] at hs
        exact hk hs
      rw [List.find?_cons_of_neg _ (by simpa using hph), ih seen hk]
    · rw [if_neg hs]
      by_cases hkx : key h = k
      · rw [List.find?_cons_of_pos _ (by simpa using hkx),
          List.find?_cons_of_pos _ (by simpa using hkx)]
      · rw [List.find?_cons_of_neg _ (by simpa using hkx),
          List.find?_cons_of_neg _ (by simpa using hkx)]
        refine ih (key h :: seen) ?_
        intro hmem
        rcases List.mem_cons.mp hmem with he | hseen
        · exact hkx he.symm
        · exact hk hseen

/-- An element of the input is represented in the de-duplicated output by an
element with the same key. -/
theorem dedupFirstByAux_exists {α β : Type} [DecidableEq β] (key : α → β) :
    ∀ (l : List α) (seen : List β) (x : α), x ∈ l → key x ∉ seen →
      ∃ y ∈ dedupFirstByAux key seen l, key y = key x := by
  intro l
  induction l with
  | nil => intro seen x hx _; cases hx
  | cons h t ih =>
    intro seen x hx hs
    unfold dedupFirstByAux
    by_cases hsh : key h ∈ seen
    · rw [if_pos hsh]
      rcases List.mem_cons.mp hx with rfl | hx2
      · exact absurd hsh hs
      · exact ih seen x hx2 hs
    · rw [if_neg hsh]
      by_cases hxh : key x = key h
      · exact ⟨h, List.mem_cons_self _ _, hxh.symm⟩
      · rcases List.mem_cons.mp hx with rfl | hx2
        · exact absurd rfl hxh
        · obtain ⟨y, hy, hyk⟩ := ih (key h :: seen) x hx2
            (by intro hmem
                rcases List.mem_cons.mp hmem with he | hseen
                · exact hxh he
                · exact hs hseen)
          exact ⟨y, List.mem_cons_of_mem _ hy, hyk⟩

/-- Pairwise relations strengthen under a member-wise implication. -/
theorem pairwise_imp_of_mem {α : Type} {R S : α → α → Prop} :
    ∀ {l : List α}, (∀ a b, a ∈ l → b ∈ l → R a b → S a b) → l.Pairwise R → l.Pairwise S := by
  intro l
  induction l with
  | nil => intro _ _; exact List.Pairwise.nil
  | cons x t ih =>
    intro H h
    rw [List.pairwise_cons] at h ⊢
    refine ⟨fun y hy => H x y (List.mem_cons_self _ _) (List.mem_cons_of_mem _ hy) (h.1 y hy),
      ih (fun a b ha hb => H a b (List.mem_cons_of_mem _ ha) (List.mem_cons_of_mem _ hb)) h.2⟩

/-- The identity columns of a recovered row come from its unmatched row. -/
theorem recovered_cols (unmatched : List Row) :
    ∀ m ∈ recoveredMatches unmatched, ∃ r ∈ unmatched, mCols m = rCols r := by
  intro m hm
  obtain ⟨r, hr, hrm⟩ := List.mem_map.mp hm
  exact ⟨r, List.mem_of_mem_filter hr, by rw [← hrm]; rfl⟩

/-- **C2 (counterexample).** The claim quantifies over every pair of input
tables, but when the two tables associate one `id_fpl` with two different
name pairs the final left merge keys on the name triple and keeps both rows:
with an unmatched row `(C, D, id 1)` and a matched row `(A, B, id 1)` the
merged output carries `id_fpl = 1` twice. -/
theorem process_player_matches_duplicate_id_fpl :
    ((process_player_matches [unmatchedCD] [matchedAB]).1.map (fun r => r.id_fpl))
      = [1, 1] := by
  decide

/-- The keyed de-duplication only keeps elements of its input. -/
theorem dedupFirstBy_subset {α β : Type} [DecidableEq β] (key : α → β) (l : List α)
    (x : α) (hx : x ∈ dedupFirstBy key l) : x ∈ l :=
  dedupFirstByAux_subset key l [] x hx

/-- The keyed de-duplication emits pairwise-distinct key values. -/
theorem dedupFirstBy_keys_nodup {α β : Type} [DecidableEq β] (key : α → β) (l : List α) :
    ((dedupFirstBy key l).map key).Nodup :=
  (dedupFirstByAux_keys key l []).1

/-- On the keyed de-duplication, `find?` by key agrees with the input. -/
theorem dedupFirstBy_find? {α β : Type} [DecidableEq β] (key : α → β) (k : β) (l : List α) :
    (dedupFirstBy key l).find? (fun x => key x = k) = l.find? (fun x => key x = k) :=
  dedupFirstByAux_find? key k l [] (by simp)

/-- Every input element has a same-key representative in the keyed
de-duplication. -/
theorem dedupFirstBy_exists {α β : Type} [DecidableEq β] (key : α → β) (l : List α)
    (x : α) (hx : x ∈ l) : ∃ y ∈ dedupFirstBy key l, key y = key x :=
  dedupFirstByAux_exists key l [] x hx (by simp)

/-- The left merge onto a roster of pairwise-distinct `id_fpl` triples yields
rows of pairwise-distinct `id_fpl`. -/
theorem merged_pairwise (MD : List MatchedRow) (L : List (String × String × Nat))
    (hLpw : L.Pairwise (fun a b => a.2.2 ≠ b.2.2)) :
    ((sortByIdFpl L).map (fun t =>
      match MD.find? (fun m => mCols m = t) with
      | some m => (⟨t.1, t.2.1, t.2.2, m.name, m.id_fbref⟩ : FinalRow)
      | none => (⟨t.1, t.2.1, t.2.2, none, none⟩ : FinalRow))).Pairwise
      (fun a b => a.id_fpl ≠ b.id_fpl) := by
  have hsorted : (sortByIdFpl L).Pairwise (fun a b => a.2.2 ≠ b.2.2) := by
    unfold sortByIdFpl
    exact ((sortOrd_perm (fun x y => y.2.2 < x.2.2) L).pairwise_iff
      (by intro a b h; exact Ne.symm h)).mpr hLpw
  have hgid : ∀ t : String × String × Nat,
      (match MD.find? (fun m => mCols m = t) with
       | some m => (⟨t.1, t.2.1, t.2.2, m.name, m.id_fbref⟩ : FinalRow)
       | none => (⟨t.1, t.2.1, t.2.2, none, none⟩ : FinalRow)).id_fpl = t.2.2 := by
    intro t
    cases MD.find? (fun m => mCols m = t) <;> rfl
  rw [List.pairwise_map]
  refine hsorted.imp ?_
  intro a b hab
  rw [hgid a, hgid b]
  exact hab

/-- **C2 (amended).** Whenever `id_fpl` determines the name pair across the
two input tables — as it does for the frames the pipeline builds, whose rows
all descend from the FPL roster — the merged table contains no two rows with
the same `id_fpl`; and independently of that hypothesis, when the
concatenated matched set holds several rows with one `id_fpl`, the
de-duplication keeps exactly the first occurrence. -/
theorem process_player_matches_unique_id_fpl (unmatched : List Row) (matched : List MatchedRow)
    (hFD : ∀ t1 ∈ matched.map mCols ++ unmatched.map rCols,
           ∀ t2 ∈ matched.map mCols ++ unmatched.map rCols,
           t1.2.2 = t2.2.2 → t1 = t2) :
    ((process_player_matches unmatched matched).1.Pairwise
      (fun a b => a.id_fpl ≠ b.id_fpl))
    ∧ ∀ k, (dedupFirstBy (fun m : MatchedRow => m.id_fpl)
             (matched ++ recoveredMatches unmatched)).find? (fun m => m.id_fpl = k)
         = (matched ++ recoveredMatches unmatched).find? (fun m => m.id_fpl = k) := by
  constructor
  · have hDsub : ∀ t ∈ dedupFirstBy (fun t => t)
        ((dedupFirstBy (fun m : MatchedRow => m.id_fpl)
            (matched ++ recoveredMatches unmatched)).map mCols
          ++ unmatched.map rCols),
        t ∈ matched.map mCols ++ unmatched.map rCols := by
      intro t ht
      have ht2 := dedupFirstBy_subset (fun t => t) _ t ht
      rcases List.mem_append.mp ht2 with hl | hr
      · obtain ⟨m, hm, hmt⟩ := List.mem_map.mp hl
        have hm2 := dedupFirstBy_subset (fun m : MatchedRow => m.id_fpl) _ m hm
        rcases List.mem_append.mp hm2 with hml | hmr
        · exact List.mem_append.mpr (Or.inl (List.mem_map.mpr ⟨m, hml, hmt⟩))
        · obtain ⟨r, hru, hcols⟩ := recovered_cols unmatched m hmr
          exact List.mem_append.mpr (Or.inr (List.mem_map.mpr ⟨r, hru, by rw [← hcols, hmt]⟩))
      · exact List.mem_append.mpr (Or.inr hr)
    have hDnodup : (dedupFirstBy (fun t => t)
        ((dedupFirstBy (fun m : MatchedRow => m.id_fpl)
            (matched ++ recoveredMatches unmatched)).map mCols
          ++ unmatched.map rCols)).Nodup := by
      have := dedupFirstBy_keys_nodup (fun t => t)
        ((dedupFirstBy (fun m : MatchedRow => m.id_fpl)
            (matched ++ recoveredMatches unmatched)).map mCols
          ++ unmatched.map rCols)
      simpa using this
    have hDpw : (dedupFirstBy (fun t => t)
        ((dedupFirstBy (fun m : MatchedRow => m.id_fpl)
            (matched ++ recoveredMatches unmatched)).map mCols
          ++ unmatched.map rCols)).Pairwise (fun a b => a.2.2 ≠ b.2.2) := by
      refine pairwise_imp_of_mem (fun a b ha hb hab => ?_) hDnodup
      intro hids
      exact hab (hFD a (hDsub a ha) b (hDsub b hb) hids)
    exact merged_pairwise _ _ hDpw
  · intro k
    exact dedupFirstBy_find? (fun m : MatchedRow => m.id_fpl) k
      (matched ++ recoveredMatches unmatched)

/-- Witness for the amended C2: a compatible matched/unmatched pair (each
`id_fpl` with a single name pair) merges into a table with distinct
`id_fpl`s, keeping first occurrences. -/
theorem process_player_matches_unique_id_fpl_witness :
    (∀ t1 ∈ [matchedAB].map mCols ++ [unmatchedCD2].map rCols,
     ∀ t2 ∈ [matchedAB].map mCols ++ [unmatchedCD2].map rCols,
     t1.2.2 = t2.2.2 → t1 = t2)
    ∧ (((process_player_matches [unmatchedCD2] [matchedAB]).1.Pairwise
        (fun a b => a.id_fpl ≠ b.id_fpl))
      ∧ ∀ k, (dedupFirstBy (fun m => m.id_fpl)
            ([matchedAB] ++ recoveredMatches [unmatchedCD2])).find? (fun m => m.id_fpl = k)
          = ([matchedAB] ++ recoveredMatches [unmatchedCD2]).find? (fun m => m.id_fpl = k)) :=
  ⟨by decide, process_player_matches_unique_id_fpl [unmatchedCD2] [matchedAB] (by decide)⟩

/-! ## C3 — frame preservation of exact matches -/

/-- Every row a player contributes to the exact join carries that player's
identity columns. -/
theorem expandJoin_cols (fbref_ids : List FbrefRow) (q : FplRow) (r : Row)
    (hr : r ∈ expandJoin fbref_ids q) :
    r.first_name = q.first_name ∧ r.second_name = q.second_name ∧ r.id_fpl = q.id := by
  unfold expandJoin at hr
  split at hr
  · simp only [List.mem_singleton] at hr
    subst hr
    exact ⟨rfl, rfl, rfl⟩
  · obtain ⟨f0, _, hf0⟩ := List.mem_map.mp hr
    subst hf0
    exact ⟨rfl, rfl, rfl⟩

/-- Rows descending from one row through the carry-forward expansion keep its
`id_fpl`. -/
theorem carryExpand_id (previous_merged_ids : List PrevRow) (r r' : Row)
    (hr : r' ∈ carryExpand previous_merged_ids r) : r'.id_fpl = r.id_fpl := by
  unfold carryExpand at hr
  split at hr
  · simp only [List.mem_singleton] at hr
    subst hr
    rfl
  · obtain ⟨q, _, hq⟩ := List.mem_map.mp hr
    subst hq
    rfl

/-- The carry-forward expansion of a row is never empty. -/
theorem carryExpand_ne_nil (previous_merged_ids : List PrevRow) (r : Row) :
    carryExpand previous_merged_ids r ≠ [] := by
  unfold carryExpand
  split
  · simp
  · rename_i hits hne
    simpa using hne

/-- On a row whose `id_fbref` is already set, `combine_first` changes
nothing: every row of its carry-forward expansion equals it. -/
theorem carryExpand_isSome (previous_merged_ids : List PrevRow) (r : Row)
    (hs : r.id_fbref.isSome) :
    ∀ r' ∈ carryExpand previous_merged_ids r, r' = r := by
  intro r' hr
  unfold carryExpand at hr
  split at hr
  · simp only [List.mem_singleton] at hr
    exact hr
  · obtain ⟨q, _, hq⟩ := List.mem_map.mp hr
    obtain ⟨x, hx⟩ := Option.isSome_iff_exists.mp hs
    subst hq
    rw [show r.id_fbref.orElse (fun _ => q.id_fbref) = r.id_fbref from by rw [hx]; rfl]

/-- `apply_fuzzy` keeps each row's identity columns. -/
theorem apply_fuzzy_cols (scorer : String → List String → String × Nat)
    (fbref_ids : List FbrefRow) (u : List Row) :
    ∀ r ∈ apply_fuzzy scorer fbref_ids u, ∃ r0 ∈ u, rCols r0 = rCols r := by
  intro r hr
  obtain ⟨r0, hr0, he⟩ := List.mem_map.mp hr
  exact ⟨r0, hr0, by rw [← he]; rfl⟩

/-- `mapNameRow` keeps the row's identity columns. -/
theorem mapNameRow_cols (fbref_df : List FbrefRow) (r : Row) :
    rCols (mapNameRow fbref_df r) = rCols r := by
  unfold mapNameRow
  split
  · rfl
  · split
    · rfl
    · rfl

/-- `map_name_match` keeps each row's identity columns. -/
theorem map_name_match_cols (df : List Row) (fbref_df : List FbrefRow) :
    ∀ r ∈ map_name_match df fbref_df, ∃ r0 ∈ df, rCols r0 = rCols r := by
  intro r hr
  obtain ⟨r0, hr0, he⟩ := List.mem_map.mp hr
  exact ⟨r0, hr0, by rw [← he, mapNameRow_cols]⟩

/-- Composition of identity-column provenance. -/
theorem cols_trans {A B C : List Row}
    (h1 : ∀ r ∈ B, ∃ r0 ∈ A, rCols r0 = rCols r)
    (h2 : ∀ r ∈ C, ∃ r0 ∈ B, rCols r0 = rCols r) :
    ∀ r ∈ C, ∃ r0 ∈ A, rCols r0 = rCols r := by
  intro r hr
  obtain ⟨rb, hrb, he⟩ := h2 r hr
  obtain ⟨ra, hra, he2⟩ := h1 rb hrb
  exact ⟨ra, hra, he2.trans he⟩

/-- One `sift_names` iteration keeps each row's identity columns. -/
theorem siftAt_cols (fbref_df : List FbrefRow) (level : SiftLevel) (nameKey : SiftNameKey)
    (strip : String → String) (score : String → String → Nat)
    (pick : Nat → List String → Option Nat) (df : List Row) (idx : Nat) :
    ∀ r ∈ siftAt fbref_df level nameKey strip score pick df idx,
      ∃ r0 ∈ df, rCols r0 = rCols r := by
  intro r hr
  unfold siftAt at hr
  split at hr
  · exact ⟨r, hr, rfl⟩
  · rename_i row hidx
    split at hr
    · exact ⟨r, hr, rfl⟩
    · split at hr
      · exact ⟨r, hr, rfl⟩
      · split at hr
        · exact ⟨r, hr, rfl⟩
        · split at hr
          · split at hr
            · rcases List.mem_or_eq_of_mem_set hr with hmem | heq
              · exact ⟨r, hmem, rfl⟩
              · exact ⟨row, List.getElem?_mem hidx, by rw [heq]; rfl⟩
            · exact ⟨r, hr, rfl⟩
          · exact ⟨r, hr, rfl⟩

/-- `manualStep` keeps the row's identity columns. -/
theorem manualStep_cols (row : Row) (response : String) :
    rCols (manualStep row response) = rCols row := by
  unfold manualStep
  split
  · rfl
  · dsimp only
    split
    · rfl
    · rfl

/-- One `manual_sift` iteration keeps each row's identity columns. -/
theorem manualAt_cols (urls : Nat → String) (df : List Row) (idx : Nat) :
    ∀ r ∈ manualAt urls df idx, ∃ r0 ∈ df, rCols r0 = rCols r := by
  intro r hr
  unfold manualAt at hr
  split at hr
  · exact ⟨r, hr, rfl⟩
  · rename_i row hidx
    split at hr
    · exact ⟨r, hr, rfl⟩
    · rcases List.mem_or_eq_of_mem_set hr with hmem | heq
      · exact ⟨r, hmem, rfl⟩
      · exact ⟨row, List.getElem?_mem hidx, by rw [heq, manualStep_cols]⟩

/-- The whole fuzzy/sifting pass keeps each row's identity columns: every
output row has the `first_name`, `second_name` and `id_fpl` of some input
row. -/
theorem perform_fuzzy_cols (fbref_ids : List FbrefRow)
    (scorer : String → List String → String × Nat) (strip : String → String)
    (score : String → String → Nat)
    (pick1 pick2 : Nat → List String → Option Nat) (urls : Nat → String)
    (unmatched : List Row) :
    ∀ r ∈ perform_fuzzy_matching_and_sifting fbref_ids scorer strip score pick1 pick2 urls
        unmatched,
      ∃ r0 ∈ unmatched, rCols r0 = rCols r := by
  have hfold : ∀ (base : List Row)
      (step : List Row → Nat → List Row)
      (hstep : ∀ df idx, ∀ r ∈ step df idx, ∃ r0 ∈ df, rCols r0 = rCols r)
      (L : List Nat) (cur : List Row),
      (∀ r ∈ cur, ∃ r0 ∈ base, rCols r0 = rCols r) →
      ∀ r ∈ L.foldl step cur, ∃ r0 ∈ base, rCols r0 = rCols r := by
    intro base step hstep L
    induction L with
    | nil => intro cur h; exact h
    | cons i t ih =>
      intro cur h
      exact ih (step cur i) (cols_trans h (hstep cur i))
  unfold perform_fuzzy_matching_and_sifting sift_names manual_sift
  refine hfold _ _ (manualAt_cols urls) _ _ ?_
  refine hfold _ _ (siftAt_cols fbref_ids .loose .first strip score pick2) _ _ ?_
  refine hfold _ _ (siftAt_cols fbref_ids .strict .last strip score pick1) _ _ ?_
  exact cols_trans (apply_fuzzy_cols scorer fbref_ids unmatched)
    (map_name_match_cols _ fbref_ids)

/-- The final assembly maps an exactly-matched player's unique matched row to
its final row: when the matched set holds the player's record (uniquely for
its `id_fpl`) and no unmatched row carries that `id_fpl`, the merged output
has exactly one row for the player, carrying the exact-join name and id. -/
theorem process_filter_single (p : FplRow) (f : FbrefRow)
    (unmatchedX : List Row) (matchedX : List MatchedRow)
    (hm : (⟨p.first_name, p.second_name, some f.name, p.id, some f.id⟩ : MatchedRow) ∈ matchedX)
    (hmu : ∀ m ∈ matchedX, m.id_fpl = p.id →
      m = (⟨p.first_name, p.second_name, some f.name, p.id, some f.id⟩ : MatchedRow))
    (hu : ∀ r ∈ unmatchedX, r.id_fpl ≠ p.id) :
    (process_player_matches unmatchedX matchedX).1.filter (fun r => r.id_fpl = p.id)
      = [(⟨p.first_name, p.second_name, p.id, some f.name, some f.id⟩ : FinalRow)] := by
  have hrec : ∀ m ∈ recoveredMatches unmatchedX, m.id_fpl ≠ p.id := by
    intro m hm2
    obtain ⟨r, hr, hcols⟩ := recovered_cols unmatchedX m hm2
    have hid : m.id_fpl = r.id_fpl := congrArg (fun t => t.2.2) hcols
    rw [hid]
    exact hu r hr
  have hcu : ∀ m ∈ matchedX ++ recoveredMatches unmatchedX, m.id_fpl = p.id →
      m = (⟨p.first_name, p.second_name, some f.name, p.id, some f.id⟩ : MatchedRow) := by
    intro m hmm hid
    rcases List.mem_append.mp hmm with h1 | h2
    · exact hmu m h1 hid
    · exact absurd hid (hrec m h2)
  have hMDmHit : (⟨p.first_name, p.second_name, some f.name, p.id, some f.id⟩ : MatchedRow) ∈ (dedupFirstBy (fun m : MatchedRow => m.id_fpl) (matchedX ++ recoveredMatches unmatchedX)) := by
    obtain ⟨y, hy, hyk⟩ := dedupFirstBy_exists (fun m : MatchedRow => m.id_fpl)
      (matchedX ++ recoveredMatches unmatchedX) (⟨p.first_name, p.second_name, some f.name, p.id, some f.id⟩ : MatchedRow)
      (List.mem_append_left _ hm)
    have hyeq : y = (⟨p.first_name, p.second_name, some f.name, p.id, some f.id⟩ : MatchedRow) :=
      hcu y (dedupFirstBy_subset (fun m : MatchedRow => m.id_fpl) _ y hy) hyk
    rw [← hyeq]
    exact hy
  have hMDu : ∀ m ∈ (dedupFirstBy (fun m : MatchedRow => m.id_fpl) (matchedX ++ recoveredMatches unmatchedX)), m.id_fpl = p.id →
      m = (⟨p.first_name, p.second_name, some f.name, p.id, some f.id⟩ : MatchedRow) :=
    fun m hm2 h2 => hcu m (dedupFirstBy_subset (fun m : MatchedRow => m.id_fpl) _ m hm2) h2
  have hfind : (dedupFirstBy (fun m : MatchedRow => m.id_fpl) (matchedX ++ recoveredMatches unmatchedX)).find?
      (fun m => mCols m = ((p.first_name, p.second_name, p.id) : String × String × Nat))
      = some (⟨p.first_name, p.second_name, some f.name, p.id, some f.id⟩ : MatchedRow) := by
    apply find?_eq_some_of_unique _ _ _ hMDmHit
    · show decide (mCols (⟨p.first_name, p.second_name, some f.name, p.id, some f.id⟩ : MatchedRow) = _) = true
      simp [mCols]
    · intro y hy hpy
      have h1 : mCols y = (p.first_name, p.second_name, p.id) := of_decide_eq_true hpy
      exact hMDu y hy (congrArg (fun t => t.2.2) h1)
  have htpD : ((p.first_name, p.second_name, p.id) : String × String × Nat) ∈ (dedupFirstBy (fun t => t) ((dedupFirstBy (fun m : MatchedRow => m.id_fpl) (matchedX ++ recoveredMatches unmatchedX)).map mCols ++ unmatchedX.map rCols)) := by
    obtain ⟨y, hy, hyk⟩ := dedupFirstBy_exists (fun t => t)
      ((dedupFirstBy (fun m : MatchedRow => m.id_fpl) (matchedX ++ recoveredMatches unmatchedX)).map mCols ++ unmatchedX.map rCols)
      ((p.first_name, p.second_name, p.id) : String × String × Nat)
      (List.mem_append_left _ (List.mem_map.mpr ⟨(⟨p.first_name, p.second_name, some f.name, p.id, some f.id⟩ : MatchedRow), hMDmHit, rfl⟩))
    rw [← hyk]
    exact hy
  have hDu : ∀ t ∈ (dedupFirstBy (fun t => t) ((dedupFirstBy (fun m : MatchedRow => m.id_fpl) (matchedX ++ recoveredMatches unmatchedX)).map mCols ++ unmatchedX.map rCols)),
      t.2.2 = p.id → t = ((p.first_name, p.second_name, p.id) : String × String × Nat) := by
    intro t ht hid
    have ht2 := dedupFirstBy_subset (fun t => t) _ t ht
    rcases List.mem_append.mp ht2 with h1 | h2
    · obtain ⟨m, hmMD, hmt⟩ := List.mem_map.mp h1
      have e1 : m.id_fpl = t.2.2 := by rw [← hmt]; rfl
      have hmid : m.id_fpl = p.id := by rw [e1]; exact hid
      rw [← hmt, hMDu m hmMD hmid]
      rfl
    · obtain ⟨r, hru, hrt⟩ := List.mem_map.mp h2
      have e1 : r.id_fpl = t.2.2 := by rw [← hrt]; rfl
      have hrid : r.id_fpl = p.id := by rw [e1]; exact hid
      exact absurd hrid (hu r hru)
  have hDnodup : ((dedupFirstBy (fun t => t) ((dedupFirstBy (fun m : MatchedRow => m.id_fpl) (matchedX ++ recoveredMatches unmatchedX)).map mCols ++ unmatchedX.map rCols)) : List (String × String × Nat)).Nodup := by
    simpa using dedupFirstBy_keys_nodup (fun t => t)
      ((dedupFirstBy (fun m : MatchedRow => m.id_fpl) (matchedX ++ recoveredMatches unmatchedX)).map mCols ++ unmatchedX.map rCols)
  have hperm : ((sortByIdFpl (dedupFirstBy (fun t => t) ((dedupFirstBy (fun m : MatchedRow => m.id_fpl) (matchedX ++ recoveredMatches unmatchedX)).map mCols ++ unmatchedX.map rCols))) : List (String × String × Nat)).Perm (dedupFirstBy (fun t => t) ((dedupFirstBy (fun m : MatchedRow => m.id_fpl) (matchedX ++ recoveredMatches unmatchedX)).map mCols ++ unmatchedX.map rCols)) := by
    unfold sortByIdFpl
    exact sortOrd_perm _ _
  have hfil : ((sortByIdFpl (dedupFirstBy (fun t => t) ((dedupFirstBy (fun m : MatchedRow => m.id_fpl) (matchedX ++ recoveredMatches unmatchedX)).map mCols ++ unmatchedX.map rCols))) : List (String × String × Nat)).filter (fun t => t.2.2 = p.id)
      = [((p.first_name, p.second_name, p.id) : String × String × Nat)] := by
    apply filter_eq_singleton_of_nodup _ _ _ (hperm.nodup_iff.mpr hDnodup)
      (hperm.mem_iff.mpr htpD) (by simp)
    intro y hy hpy
    exact hDu y (hperm.mem_iff.mp hy) (of_decide_eq_true hpy)
  have hgid : ∀ t : String × String × Nat,
      ((match (dedupFirstBy (fun m : MatchedRow => m.id_fpl) (matchedX ++ recoveredMatches unmatchedX)).find? (fun m => mCols m = t) with
        | some m => (⟨t.1, t.2.1, t.2.2, m.name, m.id_fbref⟩ : FinalRow)
        | none => (⟨t.1, t.2.1, t.2.2, none, none⟩ : FinalRow)) : FinalRow).id_fpl = t.2.2 := by
    intro t
    cases (dedupFirstBy (fun m : MatchedRow => m.id_fpl) (matchedX ++ recoveredMatches unmatchedX)).find? (fun m => mCols m = t) <;> rfl
  show ((sortByIdFpl (dedupFirstBy (fun t => t) ((dedupFirstBy (fun m : MatchedRow => m.id_fpl) (matchedX ++ recoveredMatches unmatchedX)).map mCols ++ unmatchedX.map rCols))).map (fun t =>
      match (dedupFirstBy (fun m : MatchedRow => m.id_fpl) (matchedX ++ recoveredMatches unmatchedX)).find? (fun m => mCols m = t) with
      | some m => (⟨t.1, t.2.1, t.2.2, m.name, m.id_fbref⟩ : FinalRow)
      | none => (⟨t.1, t.2.1, t.2.2, none, none⟩ : FinalRow))).filter
    (fun r => r.id_fpl = p.id)
    = [(⟨p.first_name, p.second_name, p.id, some f.name, some f.id⟩ : FinalRow)]
  rw [List.filter_map]
  have hcong : ((sortByIdFpl (dedupFirstBy (fun t => t) ((dedupFirstBy (fun m : MatchedRow => m.id_fpl) (matchedX ++ recoveredMatches unmatchedX)).map mCols ++ unmatchedX.map rCols))) : List (String × String × Nat)).filter
        ((fun r : FinalRow => decide (r.id_fpl = p.id)) ∘ (fun t =>
      match (dedupFirstBy (fun m : MatchedRow => m.id_fpl) (matchedX ++ recoveredMatches unmatchedX)).find? (fun m => mCols m = t) with
      | some m => (⟨t.1, t.2.1, t.2.2, m.name, m.id_fbref⟩ : FinalRow)
      | none => (⟨t.1, t.2.1, t.2.2, none, none⟩ : FinalRow)))
      = ((sortByIdFpl (dedupFirstBy (fun t => t) ((dedupFirstBy (fun m : MatchedRow => m.id_fpl) (matchedX ++ recoveredMatches unmatchedX)).map mCols ++ unmatchedX.map rCols))) : List (String × String × Nat)).filter (fun t => t.2.2 = p.id) :=
    List.filter_congr (fun t _ => by
      simp only [Function.comp_apply]
      rw [hgid t])
  rw [hcong]
  rw [hfil]
  show [(match (dedupFirstBy (fun m : MatchedRow => m.id_fpl) (matchedX ++ recoveredMatches unmatchedX)).find?
      (fun m => mCols m = ((p.first_name, p.second_name, p.id) : String × String × Nat)) with
    | some m =>
      (⟨p.first_name, p.second_name, p.id, m.name, m.id_fbref⟩ : FinalRow)
    | none => (⟨p.first_name, p.second_name, p.id, none, none⟩ : FinalRow))]
    = [(⟨p.first_name, p.second_name, p.id, some f.name, some f.id⟩ : FinalRow)]
  rw [hfind]

/-- Splitting a merged frame holding the exact-join row for `p` (uniquely for
`p`'s id) and running the whole fuzzy/sifting pass on the unmatched side
leaves exactly one final row for `p`: the exact-join result. -/
theorem merged_to_process (fbref_ids : List FbrefRow)
    (scorer : String → List String → String × Nat) (strip : String → String)
    (score : String → String → Nat) (pick1 pick2 : Nat → List String → Option Nat)
    (urls : Nat → String) (p : FplRow) (f : FbrefRow) (merged2 : List Row)
    (hin : (⟨p.first_name, p.second_name, p.id, full_name_abbr p, full_name_full p, some f.name, some f.id, none⟩ : Row) ∈ merged2)
    (hun : ∀ r ∈ merged2, r.id_fpl = p.id → r = (⟨p.first_name, p.second_name, p.id, full_name_abbr p, full_name_full p, some f.name, some f.id, none⟩ : Row)) :
    (process_player_matches
        (perform_fuzzy_matching_and_sifting fbref_ids scorer strip score pick1 pick2 urls
          (merged2.filter (fun r => r.id_fbref.isNone)))
        ((merged2.filter (fun r => r.id_fbref.isSome)).map
          (fun r => (⟨r.first_name, r.second_name, r.name, r.id_fpl, r.id_fbref⟩
            : MatchedRow)))).1.filter (fun r => r.id_fpl = p.id)
      = [(⟨p.first_name, p.second_name, p.id, some f.name, some f.id⟩ : FinalRow)] := by
  apply process_filter_single p f
  · exact List.mem_map.mpr ⟨(⟨p.first_name, p.second_name, p.id, full_name_abbr p, full_name_full p, some f.name, some f.id, none⟩ : Row), List.mem_filter.mpr ⟨hin, rfl⟩, rfl⟩
  · intro m hm2 hid
    obtain ⟨r, hrf, hrm⟩ := List.mem_map.mp hm2
    have hrid : r.id_fpl = p.id := by rw [← hrm] at hid; exact hid
    have hreq := hun r (List.mem_of_mem_filter hrf) hrid
    rw [← hrm, hreq]
  · intro r hr
    obtain ⟨r0, hr0, hcols⟩ :=
      perform_fuzzy_cols fbref_ids scorer strip score pick1 pick2 urls _ r hr
    have hid : r0.id_fpl = r.id_fpl := congrArg (fun t => t.2.2) hcols
    intro hrp
    have hr0p : r0.id_fpl = p.id := by rw [hid]; exact hrp
    have heq := hun r0 (List.mem_of_mem_filter hr0) hr0p
    have hnone : r0.id_fbref.isNone = true := (List.mem_filter.mp hr0).2
    rw [heq] at hnone
    simp at hnone

/-- Under a unique exact hit, the join expansion of `p` is exactly the hit
row. -/
theorem expandJoin_hit (fbref_ids : List FbrefRow) (p : FplRow) (f : FbrefRow)
    (hhit : fbref_ids.filter (joinsWith p) = [f]) :
    expandJoin fbref_ids p = [(⟨p.first_name, p.second_name, p.id, full_name_abbr p, full_name_full p, some f.name, some f.id, none⟩ : Row)] := by
  unfold expandJoin
  rw [hhit]
  rfl

/-- **C3.** A source-A player whose name pair finds a unique exact hit in the
FBRef roster keeps exactly that record through the whole run: whatever the
previous-season table, the scorer, the normalization, the interactive
selections and the manual URLs do, the final output holds exactly one row for
the player's `id_fpl`, carrying the exact-join `name_fbref` and `id_fbref`. -/
theorem exact_match_frame_preserved (fpl_ids : List FplRow) (fbref_ids : List FbrefRow)
    (previous_merged_ids : Option (List PrevRow))
    (scorer : String → List String → String × Nat) (strip : String → String)
    (score : String → String → Nat) (pick1 pick2 : Nat → List String → Option Nat)
    (urls : Nat → String) (p : FplRow) (f : FbrefRow)
    (hids : (fpl_ids.map (fun q => q.id)).Nodup)
    (hp : p ∈ fpl_ids)
    (hhit : fbref_ids.filter (joinsWith p) = [f]) :
    (merge_fpl_fbref_ids fpl_ids fbref_ids previous_merged_ids scorer strip score pick1
        pick2 urls).1.filter (fun r => r.id_fpl = p.id)
      = [(⟨p.first_name, p.second_name, p.id, some f.name, some f.id⟩ : FinalRow)] := by
  have hexp := expandJoin_hit fbref_ids p f hhit
  have hmem : (⟨p.first_name, p.second_name, p.id, full_name_abbr p, full_name_full p, some f.name, some f.id, none⟩ : Row) ∈ exact_join fpl_ids fbref_ids := by
    unfold exact_join
    exact List.mem_flatMap.mpr ⟨p, hp, by rw [hexp]; exact List.mem_singleton.mpr rfl⟩
  have huniq : ∀ r ∈ exact_join fpl_ids fbref_ids, r.id_fpl = p.id → r = (⟨p.first_name, p.second_name, p.id, full_name_abbr p, full_name_full p, some f.name, some f.id, none⟩ : Row) := by
    intro r hr hid
    unfold exact_join at hr
    obtain ⟨q, hq, hrq⟩ := List.mem_flatMap.mp hr
    obtain ⟨_, _, hqid⟩ := expandJoin_cols fbref_ids q r hrq
    have hqp : q = p := List.inj_on_of_nodup_map hids hq hp (by rw [← hqid, hid])
    subst hqp
    rw [hexp] at hrq
    exact List.mem_singleton.mp hrq
  cases previous_merged_ids with
  | none =>
    exact merged_to_process fbref_ids scorer strip score pick1 pick2 urls p f
      (exact_join fpl_ids fbref_ids) hmem huniq
  | some prev =>
    have hin2 : (⟨p.first_name, p.second_name, p.id, full_name_abbr p, full_name_full p, some f.name, some f.id, none⟩ : Row) ∈ carry_forward (exact_join fpl_ids fbref_ids) prev := by
      unfold carry_forward
      obtain ⟨x, hx⟩ := List.exists_mem_of_ne_nil _ (carryExpand_ne_nil prev (⟨p.first_name, p.second_name, p.id, full_name_abbr p, full_name_full p, some f.name, some f.id, none⟩ : Row))
      have hxe := carryExpand_isSome prev (⟨p.first_name, p.second_name, p.id, full_name_abbr p, full_name_full p, some f.name, some f.id, none⟩ : Row) rfl x hx
      exact List.mem_flatMap.mpr ⟨(⟨p.first_name, p.second_name, p.id, full_name_abbr p, full_name_full p, some f.name, some f.id, none⟩ : Row), hmem, hxe ▸ hx⟩
    have hun2 : ∀ r ∈ carry_forward (exact_join fpl_ids fbref_ids) prev,
        r.id_fpl = p.id → r = (⟨p.first_name, p.second_name, p.id, full_name_abbr p, full_name_full p, some f.name, some f.id, none⟩ : Row) := by
      intro r hr hid
      unfold carry_forward at hr
      obtain ⟨r0, hr0, hrr⟩ := List.mem_flatMap.mp hr
      have hr0id : r.id_fpl = r0.id_fpl := carryExpand_id prev r0 r hrr
      have hr0e : r0 = (⟨p.first_name, p.second_name, p.id, full_name_abbr p, full_name_full p, some f.name, some f.id, none⟩ : Row) := huniq r0 hr0 (by rw [← hr0id]; exact hid)
      rw [hr0e] at hrr
      exact carryExpand_isSome prev (⟨p.first_name, p.second_name, p.id, full_name_abbr p, full_name_full p, some f.name, some f.id, none⟩ : Row) rfl r hrr
    exact merged_to_process fbref_ids scorer strip score pick1 pick2 urls p f
      (carry_forward (exact_join fpl_ids fbref_ids) prev) hin2 hun2

/-- Witness for C3 at the spec's worked example: Mohamed Salah's exact match
survives the full pipeline untouched. -/
theorem exact_match_frame_preserved_witness :
    (([fplSalah].map (fun q => q.id)).Nodup ∧ fplSalah ∈ [fplSalah]
      ∧ [fbrefSalah].filter (joinsWith fplSalah) = [fbrefSalah])
    ∧ (merge_fpl_fbref_ids [fplSalah] [fbrefSalah] none (extractOneModel scoreEq)
        (fun s => s) scoreEq (fun _ _ => none) (fun _ _ => none) (fun _ => "")).1.filter
        (fun r => r.id_fpl = fplSalah.id)
      = [(⟨fplSalah.first_name, fplSalah.second_name, fplSalah.id, some fbrefSalah.name,
          some fbrefSalah.id⟩ : FinalRow)] :=
  ⟨⟨by decide, by decide, by decide⟩,
   exact_match_frame_preserved [fplSalah] [fbrefSalah] none (extractOneModel scoreEq)
     (fun s => s) scoreEq (fun _ _ => none) (fun _ _ => none) (fun _ => "")
     fplSalah fbrefSalah (by decide) (by decide) (by decide)⟩

end FPLEdge
